import Mathlib

/-!
Verification model of `scripts/openapi-conformance.py` (Hadrian repository).

The script compares two OpenAPI documents (the OpenAI reference spec and the
Hadrian spec): it resolves `$ref` / `allOf` / `oneOf` / `anyOf` schema nodes,
derives canonical type strings, diffs the property sets of request bodies,
200-response bodies and query parameters, and converts the differences into
CI violations using a documented-exceptions table and an extension-marker
convention.

Modelling conventions (shallow embedding of the Python source):
* JSON values are the inductive `Json`; Python dicts are association lists in
  insertion order (`json.load` produces dicts with unique string keys).
* Functions that can raise in Python, or that the Python interpreter would run
  forever on (unbounded recursion through cyclic `$ref` chains), are modelled
  as `Option`-valued, with `none` for an aborted / non-terminating run.
  Recursive procedures carry an explicit fuel (`Nat`) that is decremented on
  every recursive call; `none` on fuel exhaustion models a Python stack
  overflow.  All definitions are written with structural recursion on fuel or
  on lists, so they evaluate inside the kernel (`rfl`/`decide`).
* CPython's hash-randomized `set` iteration order (`list(set(...))` in
  `_merge_schemas`, and the common-field loop of `_compare_schemas`) is not
  deterministic in the source; the model fixes insertion order / reference
  property order.  No modelled claim observes that order: only membership and
  emptiness are used.
* The `$ref` resolution cache of `OpenAPIResolver` is omitted: a cache entry is
  written only after a resolution completes, the documents are immutable and
  resolution is deterministic, so the cache never changes any returned value
  and never cuts a cyclic chain.
* Exotic duck-typing corners that the Python code would crash on (for example
  a non-string `$ref`, a non-dict operation object, iterating a number) are
  modelled as `none`; a handful of comparably exotic corners that Python would
  *not* crash on (for example `True == 1` key collisions) are noted inline
  where they are approximated.
-/

/-- JSON value tree, as produced by `json.load`: Python dicts are association
lists in insertion order with string keys. -/
inductive Json where
  | null : Json
  | bool : Bool → Json
  | num : Int → Json
  | str : String → Json
  | arr : List Json → Json
  | obj : List (String × Json) → Json

/-- Dictionary lookup, `d.get(k)`: first matching key (Python dicts have unique
keys). -/
def getKey : List (String × Json) → String → Option Json
  | [], _ => none
  | (k2, v) :: rest, k => if k2 = k then some v else getKey rest k

/-- Dictionary lookup with default, `d.get(k, dflt)`. -/
def getKeyD (kvs : List (String × Json)) (k : String) (dflt : Json) : Json :=
  (getKey kvs k).getD dflt

/-- Membership test `k in d` on a dict. -/
def hasKey (kvs : List (String × Json)) (k : String) : Bool :=
  (getKey kvs k).isSome

/-- Dictionary assignment `d[k] = v`: replaces the value at an existing key in
place (Python keeps the original insertion position), appends otherwise. -/
def setKey : List (String × Json) → String → Json → List (String × Json)
  | [], k, v => [(k, v)]
  | (k2, v2) :: rest, k, v =>
    if k2 = k then (k, v) :: rest else (k2, v2) :: setKey rest k v

/-- Python truthiness of a JSON value (`bool(x)`). -/
def truthy : Json → Bool
  | Json.null => false
  | Json.bool b => b
  | Json.num n => n != 0
  | Json.str s => !s.toList.isEmpty
  | Json.arr l => !l.isEmpty
  | Json.obj kvs => !kvs.isEmpty

/-- Equality of hashable (scalar) JSON values.  Every place the source compares
or keys by a JSON value, the value is a scalar (lists/dicts are unhashable and
the run would have crashed first).  CPython's numeric cross-type equalities
(`True == 1`) are not modelled; they cannot arise from one `json.load`-ed
document. -/
def scalarEq : Json → Json → Bool
  | Json.null, Json.null => true
  | Json.bool a, Json.bool b => a == b
  | Json.num a, Json.num b => a == b
  | Json.str a, Json.str b => a == b
  | _, _ => false

/-- Unhashable values (would raise `TypeError` as a dict key / set element). -/
def isUnhashable : Json → Bool
  | Json.arr _ => true
  | Json.obj _ => true
  | _ => false

/-- Iteration over a Python value (`for x in v`): lists yield elements, strings
yield their characters, dicts yield their keys; anything else raises. -/
def pyIter : Json → Option (List Json)
  | Json.arr l => some l
  | Json.str s => some (s.toList.map (fun c => Json.str c.toString))
  | Json.obj kvs => some (kvs.map (fun kv => Json.str kv.1))
  | _ => none

/-- Append an element unless an equal one is present (insertion-order model of
a CPython `set`; the source's `list(set(...))` order is hash-randomized and is
never observed by a modelled property). -/
def addUniqueJ (l : List Json) (x : Json) : List Json :=
  if l.any (fun e => scalarEq e x) then l else l ++ [x]

/-- Python `set(v)`: iterate `v` and deduplicate; unhashable elements raise. -/
def pySet (v : Json) : Option (List Json) := do
  let l ← pyIter v
  if l.any isUnhashable then none
  else some (l.foldl addUniqueJ [])

/-- Python `str(x)` for message interpolation and `_get_type_string`'s non-dict
fallback.  Containers are approximated (no modelled flow prints one): Python
would print their full `repr`. -/
def pyStr : Json → String
  | Json.null => "None"
  | Json.bool true => "True"
  | Json.bool false => "False"
  | Json.num n => toString n
  | Json.str s => s
  | Json.arr _ => "[...]"
  | Json.obj _ => "\x7b...\x7d"

/-- Single-quote character, used to reproduce the source's f-string messages. -/
def sqt : String := (Char.ofNat 39).toString

/-- Python `s.startswith(pre)`. -/
def strStarts (s pre : String) : Bool := pre.toList.isPrefixOf s.toList

/-- Python `s.endswith(suf)`. -/
def strEnds (s suf : String) : Bool := suf.toList.reverse.isPrefixOf s.toList.reverse

/-- Splitting on `/` over the character list (matches Python `s.split("/")`,
including `"".split("/") == [""]`). -/
def splitSlashAux : List Char → List String
  | [] => [""]
  | c :: rest =>
    if c = '/' then "" :: splitSlashAux rest
    else
      match splitSlashAux rest with
      | [] => [String.mk [c]]
      | h :: t => String.mk (c :: h.toList) :: t

/-- Python `s.split("/")`. -/
def splitSlash (s : String) : List String := splitSlashAux s.toList

/-- Python `s[2:]` (ASCII input in every modelled flow). -/
def strDropTwo (s : String) : String := String.mk (s.toList.drop 2)

/-- Substring test over character lists. -/
def containsSub : List Char → List Char → Bool
  | [], needle => needle.isEmpty
  | c :: t, needle => needle.isPrefixOf (c :: t) || containsSub t needle

/-- Python `needle in hay` on strings. -/
def hasSubstr (hay needle : String) : Bool := containsSub hay.toList needle.toList

/-- ASCII upper-casing of one character. -/
def chUp (c : Char) : Char :=
  if 97 ≤ c.toNat && c.toNat ≤ 122 then Char.ofNat (c.toNat - 32) else c

/-- Python `s.upper()` (the compared HTTP method names are ASCII). -/
def strUpper (s : String) : String := String.mk (s.toList.map chUp)

/-- Join a list of strings with a separator (Python `sep.join(l)`). -/
def joinSep (sep : String) : List String → String
  | [] => ""
  | [x] => x
  | x :: rest => x ++ sep ++ joinSep sep rest

/-- Fuelled non-overlapping left-to-right replacement over a character list; the
fuel is set to the haystack length so it never runs out for the modelled call
(`path.replace("/api/v1/", "/")`, a non-empty pattern). -/
def replAux (pat repl : List Char) : Nat → List Char → List Char
  | 0, hay => hay
  | _ + 1, [] => []
  | n + 1, c :: rest =>
    if pat.isPrefixOf (c :: rest) then
      repl ++ replAux pat repl n (List.drop (pat.length - 1) rest)
    else c :: replAux pat repl n rest

/-- Python `s.replace(pat, repl)` (all non-overlapping occurrences, left to
right; the modelled call sites always pass a non-empty `pat`). -/
def pyReplace (s pat repl : String) : String :=
  String.mk (replAux pat.toList repl.toList (s.toList.length + 1) s.toList)

/-- Fallible left fold: the loop aborts (`none`) as soon as one step aborts,
like a Python exception unwinding a `for` loop. -/
def optFold {α β : Type} (step : β → α → Option β) : β → List α → Option β
  | r, [] => some r
  | r, x :: rest =>
    match step r x with
    | none => none
    | some r2 => optFold step r2 rest

/-- Monadic map over the values of an association list (a Python dict
comprehension over `.items()`). -/
def mapValsM (f : Json → Option Json) : List (String × Json) → Option (List (String × Json))
  | [] => some []
  | (k, v) :: rest => do
    let v2 ← f v
    let r ← mapValsM f rest
    some ((k, v2) :: r)

/-- Check that an `Option Json` (a `d.get(k)` result) is a given string, the
Python comparison `d.get(k) == s`. -/
def jsonIsStr (v : Option Json) (s : String) : Bool :=
  match v with
  | some (Json.str t) => t == s
  | _ => false

-- =========================================================================
-- Policy tables (module-level constants of the source)
-- =========================================================================

/-- One entry of `DOCUMENTED_MISSING_FIELDS`: key `(openai_path, method,
location, field)` with a justification string. -/
structure DocEntry where
  path : String
  method : String
  location : String
  field : String
  reason : String

/-- The `DOCUMENTED_MISSING_FIELDS` table of the source, verbatim. -/
def DOCUMENTED_MISSING_FIELDS : List DocEntry := [
  ⟨"/chat/completions", "POST", "request", "safety_identifier", "OpenAI internal safety feature"⟩,
  ⟨"/chat/completions", "POST", "request", "prompt_cache_key", "OpenAI-specific prompt caching key"⟩,
  ⟨"/chat/completions", "POST", "request", "service_tier", "OpenAI service tier selection (auto/default)"⟩,
  ⟨"/chat/completions", "POST", "request", "prompt_cache_retention", "OpenAI-specific cache retention"⟩,
  ⟨"/chat/completions", "POST", "request", "modalities", "OpenAI multimodal output selection"⟩,
  ⟨"/chat/completions", "POST", "request", "verbosity", "OpenAI-specific verbosity control"⟩,
  ⟨"/chat/completions", "POST", "request", "reasoning_effort", "OpenAI o1/o3 reasoning - Hadrian uses reasoning object instead"⟩,
  ⟨"/chat/completions", "POST", "request", "web_search_options", "OpenAI web search - Hadrian has separate web_search feature"⟩,
  ⟨"/chat/completions", "POST", "request", "audio", "OpenAI audio output in chat"⟩,
  ⟨"/chat/completions", "POST", "request", "store", "OpenAI stored completions feature"⟩,
  ⟨"/chat/completions", "POST", "request", "n", "Multiple completions - not supported for cost/complexity reasons"⟩,
  ⟨"/chat/completions", "POST", "request", "prediction", "OpenAI predicted outputs feature"⟩,
  ⟨"/chat/completions", "POST", "request", "parallel_tool_calls", "OpenAI parallel tool execution hint"⟩,
  ⟨"/chat/completions", "POST", "request", "function_call", "Deprecated - use tool_choice instead"⟩,
  ⟨"/chat/completions", "POST", "request", "functions", "Deprecated - use tools instead"⟩,
  ⟨"/chat/completions", "POST", "request", "include_obfuscation", "OpenAI internal obfuscation feature"⟩,
  ⟨"/completions", "POST", "request", "include_usage", "Legacy completions - use chat/completions instead"⟩,
  ⟨"/completions", "POST", "request", "include_obfuscation", "OpenAI internal obfuscation feature"⟩,
  ⟨"/images/edits", "POST", "response", "output_tokens_details", "Detailed token breakdown not tracked"⟩,
  ⟨"/images/generations", "POST", "response", "output_tokens_details", "Detailed token breakdown not tracked"⟩,
  ⟨"/images/variations", "POST", "response", "output_tokens_details", "Detailed token breakdown not tracked"⟩,
  ⟨"/models", "GET", "response", "object", "List response object type - TODO: add to schema"⟩,
  ⟨"/responses", "POST", "request", "top_logprobs", "Log probabilities not implemented"⟩,
  ⟨"/responses", "POST", "request", "prompt_cache_retention", "OpenAI-specific cache retention"⟩,
  ⟨"/responses", "POST", "request", "max_tool_calls", "Tool call limits not implemented"⟩,
  ⟨"/responses", "POST", "request", "stream_options", "Stream options not implemented"⟩,
  ⟨"/responses", "POST", "request", "conversation", "OpenAI conversation context feature"⟩,
  ⟨"/responses", "POST", "request", "format", "OpenAI-specific format parameter"⟩,
  ⟨"/responses", "POST", "request", "verbosity", "OpenAI-specific verbosity control"⟩,
  ⟨"/responses", "POST", "request", "effort", "OpenAI-specific effort parameter"⟩,
  ⟨"/responses", "POST", "request", "summary", "OpenAI-specific summary parameter"⟩,
  ⟨"/responses", "POST", "request", "generate_summary", "OpenAI-specific summary generation"⟩,
  ⟨"/responses", "POST", "request", "id", "OpenAI-specific ID parameter"⟩,
  ⟨"/responses", "POST", "request", "version", "OpenAI-specific version parameter"⟩,
  ⟨"/responses", "POST", "request", "variables", "OpenAI-specific variables parameter"⟩,
  ⟨"/responses", "POST", "request", "context_management", "OpenAI-specific context management"⟩,
  ⟨"/vector_stores/{vector_store_id}/files", "POST", "request", "attributes", "File attributes not implemented"⟩,
  ⟨"/vector_stores/{vector_store_id}/files", "POST", "response", "static", "Static file info not implemented"⟩,
  ⟨"/vector_stores/{vector_store_id}/files/{file_id}", "GET", "response", "static", "Static file info not implemented"⟩,
  ⟨"/vector_stores/{vector_store_id}/search", "POST", "request", "rewrite_query", "Query rewriting not implemented"⟩,
  ⟨"/vector_stores/{vector_store_id}/search", "POST", "response", "search_query", "Rewritten query not returned"⟩,
  ⟨"/vector_stores/{vector_store_id}/search", "POST", "response", "has_more", "Pagination not implemented for search"⟩,
  ⟨"/vector_stores/{vector_store_id}/search", "POST", "response", "next_page", "Pagination not implemented for search"⟩]

/-- Membership of a key in `DOCUMENTED_MISSING_FIELDS` (string field name). -/
def docHas (p m loc f : String) : Bool :=
  DOCUMENTED_MISSING_FIELDS.any
    (fun e => e.path == p && e.method == m && e.location == loc && e.field == f)

/-- Membership of a key whose field component is an arbitrary JSON value (query
parameter names); only string names can match the table. -/
def docHasJ (p m loc : String) : Json → Bool
  | Json.str f => docHas p m loc f
  | _ => false

/-- The `EXTENSION_MARKER` constant of the source. -/
def EXTENSION_MARKER : String := "**Hadrian Extension:**"

/-- Python `EXTENSION_MARKER in description`: substring test on a string,
membership on a list or a dict, `TypeError` otherwise. -/
def markerIn : Json → Option Bool
  | Json.str s => some (hasSubstr s EXTENSION_MARKER)
  | Json.arr l => some (l.any (fun e => scalarEq e (Json.str EXTENSION_MARKER)))
  | Json.obj kvs => some (kvs.any (fun kv => kv.1 == EXTENSION_MARKER))
  | _ => none

/-- The `ConformanceChecker.PATH_MAPPING` table, verbatim. -/
def PATH_MAPPING : List (String × String) := [
  ("/chat/completions", "/api/v1/chat/completions"),
  ("/completions", "/api/v1/completions"),
  ("/embeddings", "/api/v1/embeddings"),
  ("/models", "/api/v1/models"),
  ("/models/{model}", "/api/v1/models/{model}"),
  ("/files", "/api/v1/files"),
  ("/files/{file_id}", "/api/v1/files/{file_id}"),
  ("/files/{file_id}/content", "/api/v1/files/{file_id}/content"),
  ("/audio/speech", "/api/v1/audio/speech"),
  ("/audio/transcriptions", "/api/v1/audio/transcriptions"),
  ("/audio/translations", "/api/v1/audio/translations"),
  ("/images/generations", "/api/v1/images/generations"),
  ("/images/edits", "/api/v1/images/edits"),
  ("/images/variations", "/api/v1/images/variations"),
  ("/moderations", "/api/v1/moderations"),
  ("/vector_stores", "/api/v1/vector_stores"),
  ("/vector_stores/{vector_store_id}", "/api/v1/vector_stores/{vector_store_id}"),
  ("/vector_stores/{vector_store_id}/files", "/api/v1/vector_stores/{vector_store_id}/files"),
  ("/vector_stores/{vector_store_id}/files/{file_id}", "/api/v1/vector_stores/{vector_store_id}/files/{file_id}"),
  ("/vector_stores/{vector_store_id}/search", "/api/v1/vector_stores/{vector_store_id}/search"),
  ("/responses", "/api/v1/responses")]

/-- Lookup in `PATH_MAPPING` (`PATH_MAPPING.get(path)`). -/
def mappingGet : List (String × String) → String → Option String
  | [], _ => none
  | (k, v) :: rest, p => if k = p then some v else mappingGet rest p

/-- The `OUT_OF_SCOPE_PREFIXES` list of the source, verbatim. -/
def OUT_OF_SCOPE_PREFIXES : List String := [
  "/assistants", "/threads", "/fine_tuning", "/batches", "/organization",
  "/realtime", "/evals", "/uploads", "/audit", "/invites", "/users",
  "/projects", "/containers", "/conversations", "/videos", "/chatkit",
  "/audio/voice_consents", "/audio/voices", "/skills"]

/-- The `OUT_OF_SCOPE_PATHS` list of the source, verbatim. -/
def OUT_OF_SCOPE_PATHS : List String := [
  "/chat/completions/{completion_id}",
  "/chat/completions/{completion_id}/messages",
  "/models/{model}",
  "/models/{model}/permissions",
  "/moderations",
  "/vector_stores/{vector_store_id}/file_batches",
  "/vector_stores/{vector_store_id}/file_batches/{batch_id}",
  "/vector_stores/{vector_store_id}/file_batches/{batch_id}/cancel",
  "/vector_stores/{vector_store_id}/file_batches/{batch_id}/files",
  "/vector_stores/{vector_store_id}/files/{file_id}/content",
  "/responses/input_tokens",
  "/responses/compact",
  "/responses/{response_id}",
  "/responses/{response_id}/input_items",
  "/responses/{response_id}/cancel"]

/-- The `OUT_OF_SCOPE_METHODS` dict of the source, verbatim. -/
def OUT_OF_SCOPE_METHODS : List (String × List String) := [
  ("/chat/completions", ["get"]),
  ("/vector_stores/{vector_store_id}/files/{file_id}", ["post"])]

/-- `ConformanceChecker._path_matches_pattern`: segment-wise equality, where a
pattern segment of the form `{param}` matches any single segment. -/
def pathMatchesPattern (path pattern : String) : Bool :=
  let pp := splitSlash path
  let qq := splitSlash pattern
  pp.length == qq.length &&
    (List.zip pp qq).all
      (fun ab => (strStarts ab.2 "\x7b" && strEnds ab.2 "\x7d") || ab.1 == ab.2)

/-- `ConformanceChecker._is_out_of_scope`: exact match, then pattern match,
then prefix match. -/
def isOutOfScope (p : String) : Bool :=
  OUT_OF_SCOPE_PATHS.any (fun q => q == p) ||
  OUT_OF_SCOPE_PATHS.any (fun q => pathMatchesPattern p q) ||
  OUT_OF_SCOPE_PREFIXES.any (fun pre => strStarts p pre)

/-- `ConformanceChecker._is_method_out_of_scope`: an exact path hit answers
immediately (even negatively); otherwise pattern hits are consulted. -/
def isMethodOutOfScope (p m : String) : Bool :=
  match (OUT_OF_SCOPE_METHODS.find? (fun kv => kv.1 == p)) with
  | some kv => kv.2.any (fun x => x == m)
  | none =>
    OUT_OF_SCOPE_METHODS.any
      (fun kv => pathMatchesPattern p kv.1 && kv.2.any (fun x => x == m))

-- =========================================================================
-- OpenAPIResolver
-- =========================================================================

/-- Walk of `resolve_ref`'s lookup loop: follow path components through the
document, substituting `{}` for an absent key (`result.get(part, {})`); `none`
models the early `return {}` taken when the current value is not a dict. -/
def walk : Json → List String → Option Json
  | r, [] => some r
  | Json.obj kvs, p :: ps => walk (getKeyD kvs p (Json.obj [])) ps
  | _, _ :: _ => none

/-- `OpenAPIResolver.resolve_ref` parameterized by the recursive resolver used
on the target (the cache is omitted; see the header note). -/
def resolveRefWith (res : Json → Option Json) (doc : Json) (ref : String) : Option Json :=
  if !strStarts ref "#/" then some (Json.obj [])
  else
    match walk doc (splitSlash (strDropTwo ref)) with
    | none => some (Json.obj [])
    | some target => res target

/-- Overlay of the sibling keys of a node onto a result dict, skipping one key
(`for key, value in schema.items(): if key != skip: result[key] = value`). -/
def overlay (base : List (String × Json)) (kvs : List (String × Json)) (skip : String) :
    List (String × Json) :=
  kvs.foldl (fun m kv => if kv.1 == skip then m else setKey m kv.1 kv.2) base

/-- `OpenAPIResolver._merge_schemas`, parameterized by the resolver; the
source's `resolve_schema({"properties": source["properties"]})` detour is a
leaf-branch call that just resolves every property value, inlined here as
`mapValsM`.  Merging a non-dict source reproduces Python's duck typing: a
string source only crashes when one of the probed key names occurs in it as a
substring, a list source only when it contains one of them as an element. -/
def mergeSchemas (res : Json → Option Json) (target source : Json) : Option Json :=
  match target with
  | Json.obj tkvs =>
    match source with
    | Json.obj skvs => do
      let t1 ←
        match getKey skvs "properties" with
        | none => some tkvs
        | some (Json.obj pkvs) => do
          let rp ← mapValsM res pkvs
          let tprops ←
            match getKey tkvs "properties" with
            | some (Json.obj tp) => some tp
            | some _ => none
            | none => some []
          some (setKey tkvs "properties"
            (Json.obj (rp.foldl (fun acc kv => setKey acc kv.1 kv.2) tprops)))
        | some _ => none
      let t2 ←
        match getKey skvs "required" with
        | none => some t1
        | some v => do
          let existing ← pySet (getKeyD t1 "required" (Json.arr []))
          let more ← pyIter v
          if more.any isUnhashable then none
          else some (setKey t1 "required" (Json.arr (more.foldl addUniqueJ existing)))
      let t3 :=
        match getKey skvs "type" with
        | some tv => setKey t2 "type" tv
        | none => t2
      let t4 :=
        match getKey skvs "description" with
        | some dv => setKey t3 "description" dv
        | none => t3
      some (Json.obj t4)
    | Json.str s =>
      if hasSubstr s "properties" || hasSubstr s "required" ||
         hasSubstr s "type" || hasSubstr s "description"
      then none else some (Json.obj tkvs)
    | Json.arr l =>
      if l.any (fun e => scalarEq e (Json.str "properties")) ||
         l.any (fun e => scalarEq e (Json.str "required")) ||
         l.any (fun e => scalarEq e (Json.str "type")) ||
         l.any (fun e => scalarEq e (Json.str "description"))
      then none else some (Json.obj tkvs)
    | _ => none
  | _ => none

/-- Fold of `resolve_schema`'s `allOf` loop: resolve each sub-schema and merge
it into the accumulator. -/
def allOfFold (res : Json → Option Json) : List Json → Json → Option Json
  | [], acc => some acc
  | sub :: rest, acc => do
    let rsub ← res sub
    let acc2 ← mergeSchemas res acc rsub
    allOfFold res rest acc2

/-- The `oneOf`/`anyOf` branch filter: `isinstance(opt, dict) and
opt.get("type") == "null"`. -/
def isNullTypeLit : Json → Bool
  | Json.obj okvs => jsonIsStr (getKey okvs "type") "null"
  | _ => false

/-- Leaf-branch `properties` handling of `resolve_schema`: resolve every
property value (a non-dict `properties` crashes at `.items()`). -/
def propsResolve (rec : Json → Option Json) (kvs : List (String × Json)) :
    Option (List (String × Json)) :=
  match getKey kvs "properties" with
  | none => some kvs
  | some (Json.obj pkvs) => do
    let rp ← mapValsM rec pkvs
    some (setKey kvs "properties" (Json.obj rp))
  | some _ => none

/-- Leaf-branch `items` handling of `resolve_schema`. -/
def itemsResolve (rec : Json → Option Json) (kvs : List (String × Json)) :
    Option (List (String × Json)) :=
  match getKey kvs "items" with
  | none => some kvs
  | some it => do
    let ri ← rec it
    some (setKey kvs "items" ri)

/-- Leaf-branch `additionalProperties` handling of `resolve_schema` (resolved
only when it is a dict, as in the source's `isinstance` check). -/
def addPropsResolve (rec : Json → Option Json) (kvs : List (String × Json)) :
    Option (List (String × Json)) :=
  match getKey kvs "additionalProperties" with
  | some (Json.obj apkvs) => do
    let ra ← rec (Json.obj apkvs)
    some (setKey kvs "additionalProperties" ra)
  | _ => some kvs

/-- The leaf branch of `resolve_schema`: shallow copy with `properties`,
`items` and `additionalProperties` resolved recursively. -/
def leafResolve (rec : Json → Option Json) (kvs : List (String × Json)) : Option Json := do
  let r1 ← propsResolve rec kvs
  let r2 ← itemsResolve rec r1
  let r3 ← addPropsResolve rec r2
  some (Json.obj r3)

/-- One unfolding of `OpenAPIResolver.resolve_schema`, parameterized by the
resolver used for recursive calls.  Branch order follows the source: non-dict
pass-through, `$ref`, `allOf`, `oneOf`/`anyOf`, leaf. -/
def resolveStep (rec : Json → Option Json) (doc : Json) (s : Json) : Option Json :=
  match s with
  | Json.obj kvs =>
    match getKey kvs "$ref" with
    | some (Json.str ref) => do
      let resolved ← resolveRefWith rec doc ref
      match resolved with
      | Json.obj rkvs => some (Json.obj (overlay rkvs kvs "$ref"))
      | _ => none
    | some _ => none
    | none =>
      match getKey kvs "allOf" with
      | some v => do
        let subs ← pyIter v
        let merged ← allOfFold rec subs
          (Json.obj [("type", Json.str "object"),
                     ("properties", Json.obj []),
                     ("required", Json.arr [])])
        match merged with
        | Json.obj mkvs => some (Json.obj (overlay mkvs kvs "allOf"))
        | _ => none
      | none =>
        if hasKey kvs "oneOf" || hasKey kvs "anyOf" then
          let optsJ :=
            match getKey kvs "oneOf" with
            | some v => if truthy v then v else getKeyD kvs "anyOf" (Json.arr [])
            | none => getKeyD kvs "anyOf" (Json.arr [])
          do
            let opts ← pyIter optsJ
            match opts.filter (fun o => !isNullTypeLit o) with
            | o :: _ => do
              let rres ← rec o
              match rres with
              | Json.obj rkvs => some (Json.obj (setKey rkvs "_nullable" (Json.bool true)))
              | _ => none
            | [] => some (Json.obj [("type", Json.str "null"), ("_nullable", Json.bool true)])
        else leafResolve rec kvs
  | other => some other

/-- `OpenAPIResolver.resolve_schema` with explicit fuel: the fuel is spent one
unit per recursive call, and `none` on exhaustion models the unbounded Python
recursion (a stack overflow aborting the run). -/
def resolveSchema : Nat → Json → Json → Option Json
  | 0, _, _ => none
  | n + 1, doc, s => resolveStep (fun j => resolveSchema n doc j) doc s

/-- `OpenAPIResolver.resolve_ref` with explicit fuel for the recursive
resolution of the target. -/
def resolveRef (fuel : Nat) (doc : Json) (ref : String) : Option Json :=
  resolveRefWith (fun j => resolveSchema fuel doc j) doc ref

-- =========================================================================
-- ConformanceChecker: type classifier and type compatibility
-- =========================================================================

/-- Filter predicate of the OpenAPI 3.1 list-type normalization
(`t != "null"`): true unless the entry is exactly the string `"null"`. -/
def neNullStr : Json → Bool
  | Json.str s => s != "null"
  | _ => true

/-- Extract the strings of a list (`"|".join(types)` raises on a non-string
entry). -/
def allStrs : List Json → Option (List String)
  | [] => some []
  | Json.str s :: rest => do
    let r ← allStrs rest
    some (s :: r)
  | _ :: _ => none

/-- The list-type normalization of `_get_type_string`: drop `"null"` entries;
a single survivor becomes the type, otherwise the survivors are joined with
`|` (an empty join yields `""`, which is falsy further down). -/
def normalizeType : Option Json → Option (Option Json)
  | some (Json.arr l) =>
    let ts := l.filter neNullStr
    match ts with
    | [t] => some (some t)
    | _ =>
      match allStrs ts with
      | some ss => some (some (Json.str (joinSep "|" ss)))
      | none => none
  | x => some x

/-- Truthiness of an optional value (`schema_type` may be Python `None`). -/
def truthyOpt : Option Json → Bool
  | none => false
  | some j => truthy j

/-- Last segment of a reference string (`ref.split("/")[-1]`; a split result is
never empty). -/
def lastSeg (r : String) : String := (splitSlash r).getLastD ""

/-- One unfolding of `ConformanceChecker._get_type_string`, parameterized by
the recursive classifier (used on `items` and `additionalProperties`). -/
def getTypeStep (rec : Json → Option String) (schema : Json) : Option String :=
  match schema with
  | Json.obj kvs => do
    let st ← normalizeType (getKey kvs "type")
    if jsonIsStr st "array" then do
      let t ← rec (getKeyD kvs "items" (Json.obj []))
      some ("array<" ++ t ++ ">")
    else if jsonIsStr st "object" then
      match getKey kvs "additionalProperties" with
      | some ap => do
        let t ← rec ap
        some ("map<string, " ++ t ++ ">")
      | none => some "object"
    else if truthyOpt st then some (pyStr (st.getD Json.null))
    else if hasKey kvs "enum" then some "enum"
    else
      match getKey kvs "$ref" with
      | some (Json.str r) => some (lastSeg r)
      | some _ => none
      | none => some "unknown"
  | other => some (pyStr other)

/-- `ConformanceChecker._get_type_string` with explicit fuel (the Python
recursion is bounded by the depth of the already-resolved schema value; any
fuel larger than that depth gives the Python answer). -/
def getTypeString : Nat → Json → Option String
  | 0, _ => none
  | n + 1, s => getTypeStep (fun j => getTypeString n j) s

/-- `ConformanceChecker._types_compatible`. -/
def typesCompatible (a b : String) : Bool :=
  a == b ||
  ((a == "integer" || a == "number") && (b == "integer" || b == "number")) ||
  (a == "number" && b == "double") ||
  (b == "number" && a == "double")

-- =========================================================================
-- Diff / violation / report data model
-- =========================================================================

/-- The `DiffType` enum of the source. -/
inductive DiffType where
  | missing_in_hadrian : DiffType
  | hadrian_extension : DiffType
  | type_mismatch : DiffType
  | required_mismatch : DiffType

/-- Decidable equality for `DiffType` (flat enum). -/
def DiffType.beq : DiffType → DiffType → Bool
  | .missing_in_hadrian, .missing_in_hadrian => true
  | .hadrian_extension, .hadrian_extension => true
  | .type_mismatch, .type_mismatch => true
  | .required_mismatch, .required_mismatch => true
  | _, _ => false

/-- The `SchemaDiff` dataclass.  `field` is a `Json` because a query-parameter
name is whatever `p.get("name")` returned; in the schema loops it is always a
`Json.str`.  Unset `openai_value`/`hadrian_value` are Python `None`. -/
structure SchemaDiff where
  path : String
  field : Json
  diff_type : DiffType
  openai_value : Json
  hadrian_value : Json
  description : String

/-- The `EndpointDiff` dataclass. -/
structure EndpointDiff where
  path : String
  method : String
  request_diffs : List SchemaDiff
  response_diffs : List SchemaDiff
  param_diffs : List SchemaDiff
  missing_in_hadrian : Bool
  hadrian_extension : Bool

/-- The `Violation` dataclass (`field` defaults to `""`). -/
structure Violation where
  violation_type : String
  path : String
  method : String
  field : Json
  location : String
  message : String

/-- The `ConformanceReport` dataclass.  The two version fields hold whatever
JSON value `info.version` carried. -/
structure ConformanceReport where
  openai_version : Json
  hadrian_version : Json
  total_openai_endpoints : Nat
  total_hadrian_endpoints : Nat
  endpoints_checked : Nat
  fully_conformant : Nat
  endpoints_with_diffs : List EndpointDiff
  out_of_scope_endpoints : List String
  hadrian_only_endpoints : List String
  violations : List Violation

-- =========================================================================
-- ConformanceChecker._compare_schemas
-- =========================================================================

/-- `properties` of one side: default `{}`; a non-dict value would crash the
loops (`.items()`) and is `none`. -/
def propsOf (kvs : List (String × Json)) : Option (List (String × Json)) :=
  match getKey kvs "properties" with
  | none => some []
  | some (Json.obj p) => some p
  | some _ => none

/-- `set(schema.get("required", []))` of one side. -/
def reqSetOf (kvs : List (String × Json)) : Option (List Json) :=
  match getKey kvs "required" with
  | none => some []
  | some v => pySet v

/-- Membership of a field name in a required set. -/
def inReq (req : List Json) (f : String) : Bool :=
  req.any (fun e => scalarEq e (Json.str f))

/-- The `missing_in_hadrian` diff of the first `_compare_schemas` loop. -/
def missingFieldDiff (ctx f ft : String) (isReq : Bool) : SchemaDiff :=
  { path := ctx, field := Json.str f, diff_type := DiffType.missing_in_hadrian,
    openai_value := Json.str ft, hadrian_value := Json.null,
    description := "Field " ++ sqt ++ f ++ sqt ++ " (" ++ ft ++ ") missing in Hadrian"
      ++ (if isReq then " [REQUIRED]" else "") }

/-- The `undocumented_missing` violation for a schema field. -/
def missingFieldViol (path method loc f : String) : Violation :=
  { violation_type := "undocumented_missing", path := path, method := method,
    field := Json.str f, location := loc,
    message := "Field " ++ sqt ++ f ++ sqt ++
      " is missing but not documented in DOCUMENTED_MISSING_FIELDS" }

/-- First `_compare_schemas` loop: fields present in the reference schema but
not the implementation schema — always a `missing_in_hadrian` diff, plus an
`undocumented_missing` violation when the key is absent from
`DOCUMENTED_MISSING_FIELDS`. -/
def missingLoop (cls : Json → Option String) (haProps : List (String × Json))
    (oaReq : List Json) (ctx path method loc : String) :
    List (String × Json) → Option (List SchemaDiff × List Violation)
  | [] => some ([], [])
  | (f, ov) :: rest =>
    if hasKey haProps f then missingLoop cls haProps oaReq ctx path method loc rest
    else do
      let ft ← cls ov
      let (ds, ws) ← missingLoop cls haProps oaReq ctx path method loc rest
      some (missingFieldDiff ctx f ft (inReq oaReq f) :: ds,
        (if docHas path method loc f then [] else [missingFieldViol path method loc f]) ++ ws)

/-- The `hadrian_extension` diff of the second `_compare_schemas` loop. -/
def extFieldDiff (ctx f ft : String) : SchemaDiff :=
  { path := ctx, field := Json.str f, diff_type := DiffType.hadrian_extension,
    openai_value := Json.null, hadrian_value := Json.str ft,
    description := "Field " ++ sqt ++ f ++ sqt ++ " (" ++ ft ++ ") is a Hadrian extension" }

/-- The `unmarked_extension` violation for a schema field. -/
def extFieldViol (path method loc f : String) : Violation :=
  { violation_type := "unmarked_extension", path := path, method := method,
    field := Json.str f, location := loc,
    message := "Field " ++ sqt ++ f ++ sqt ++ " is a Hadrian extension but missing "
      ++ sqt ++ EXTENSION_MARKER ++ sqt ++ " in description" }

/-- Second `_compare_schemas` loop: fields present only in the implementation
schema — always a `hadrian_extension` diff, plus an `unmarked_extension`
violation when the field's description does not contain `EXTENSION_MARKER`.
A non-dict field value crashes Python at `.get("description", "")`. -/
def extLoop (cls : Json → Option String) (oaProps : List (String × Json))
    (ctx path method loc : String) :
    List (String × Json) → Option (List SchemaDiff × List Violation)
  | [] => some ([], [])
  | (f, hv) :: rest =>
    if hasKey oaProps f then extLoop cls oaProps ctx path method loc rest
    else do
      let ft ← cls hv
      match hv with
      | Json.obj hkvs => do
        let marked ← markerIn (getKeyD hkvs "description" (Json.str ""))
        let (ds, ws) ← extLoop cls oaProps ctx path method loc rest
        some (extFieldDiff ctx f ft :: ds,
          (if marked then [] else [extFieldViol path method loc f]) ++ ws)
      | _ => none

/-- The `type_mismatch` diff of the common-field loop. -/
def typeMismatchDiff (ctx f oat hat : String) : SchemaDiff :=
  { path := ctx, field := Json.str f, diff_type := DiffType.type_mismatch,
    openai_value := Json.str oat, hadrian_value := Json.str hat,
    description := "Type mismatch for " ++ sqt ++ f ++ sqt ++ ": OpenAI="
      ++ oat ++ ", Hadrian=" ++ hat }

/-- The `required_mismatch` diff of the common-field loop. -/
def requiredMismatchDiff (ctx f : String) : SchemaDiff :=
  { path := ctx, field := Json.str f, diff_type := DiffType.required_mismatch,
    openai_value := Json.str "required", hadrian_value := Json.str "optional",
    description := "Field " ++ sqt ++ f ++ sqt ++
      " is required in OpenAI but optional in Hadrian" }

/-- The nested-object recursion of the common-field loop
(`openai_field.get("type") == "object" and hadrian_field.get("type") ==
"object"`, with the `and` short-circuit and the non-dict crashes of the
source). -/
def nestedCompare (rec : String → Json → Json → Option (List SchemaDiff × List Violation))
    (ctx f : String) (ov hv : Json) : Option (List SchemaDiff × List Violation) :=
  match ov with
  | Json.obj okv =>
    if jsonIsStr (getKey okv "type") "object" then
      match hv with
      | Json.obj hkv =>
        if jsonIsStr (getKey hkv "type") "object" then rec (ctx ++ "." ++ f) ov hv
        else some ([], [])
      | _ => none
    else some ([], [])
  | _ => none

/-- Third `_compare_schemas` loop, over the common fields: type-compatibility
and required/optional diffs, then recursion into fields both sides declare as
`type: object`.  The source iterates `set(...) & set(...)` in hash order;
the model iterates in reference property order (no modelled property observes
the order).  A non-dict reference field value crashes Python at
`.get("type")`; a non-dict implementation value only crashes when the
reference side is object-typed (the `and` short-circuits). -/
def commonLoop (cls : Json → Option String)
    (rec : String → Json → Json → Option (List SchemaDiff × List Violation))
    (haProps : List (String × Json)) (oaReq haReq : List Json) (ctx : String) :
    List (String × Json) → Option (List SchemaDiff × List Violation)
  | [] => some ([], [])
  | (f, ov) :: rest =>
    match getKey haProps f with
    | none => commonLoop cls rec haProps oaReq haReq ctx rest
    | some hv => do
      let oat ← cls ov
      let hat ← cls hv
      let (nd, nv) ← nestedCompare rec ctx f ov hv
      let (rd, rv) ← commonLoop cls rec haProps oaReq haReq ctx rest
      some ((if !typesCompatible oat hat then [typeMismatchDiff ctx f oat hat] else []) ++
            (if inReq oaReq f && !inReq haReq f then [requiredMismatchDiff ctx f] else []) ++
            nd ++ rd, nv ++ rv)

/-- One level of `ConformanceChecker._compare_schemas`, parameterized by the
type classifier and by the recursive comparison used on nested objects. -/
def compareStep (cls : Json → Option String)
    (rec : String → Json → Json → Option (List SchemaDiff × List Violation))
    (ctx path method loc : String) (oa ha : Json) :
    Option (List SchemaDiff × List Violation) :=
  match oa, ha with
  | Json.obj okvs, Json.obj hkvs => do
    let oaProps ← propsOf okvs
    let haProps ← propsOf hkvs
    let oaReq ← reqSetOf okvs
    let haReq ← reqSetOf hkvs
    let (d1, v1) ← missingLoop cls haProps oaReq ctx path method loc oaProps
    let (d2, v2) ← extLoop cls oaProps ctx path method loc haProps
    let (d3, v3) ← commonLoop cls rec haProps oaReq haReq ctx oaProps
    some (d1 ++ d2 ++ d3, v1 ++ v2 ++ v3)
  | _, _ => none

/-- `ConformanceChecker._compare_schemas` with explicit fuel for the recursion
into nested object fields.  The classifier receives the same fuel (its own
recursion is bounded by the schema depth). -/
def compareSchemas : Nat → String → String → String → String → Json → Json →
    Option (List SchemaDiff × List Violation)
  | 0, _, _, _, _, _, _ => none
  | n + 1, ctx, path, method, loc, oa, ha =>
    compareStep (fun j => getTypeString (n + 1) j)
      (fun c o h => compareSchemas n c path method loc o h) ctx path method loc oa ha

-- =========================================================================
-- ConformanceChecker._compare_endpoint
-- =========================================================================

/-- Chained `.get(k, {})` walk (`op.get("requestBody", {}).get("content", {})
...`): an absent key yields `{}`, a non-dict intermediate crashes. -/
def dig : Json → List String → Option Json
  | v, [] => some v
  | Json.obj kvs, k :: ks => dig (getKeyD kvs k (Json.obj [])) ks
  | _, _ :: _ => none

/-- Key path of the request-body schema. -/
def requestBodyPath : List String := ["requestBody", "content", "application/json", "schema"]

/-- Key path of the 200-response-body schema. -/
def responseBodyPath : List String := ["responses", "200", "content", "application/json", "schema"]

/-- Association lookup keyed by a JSON scalar (query-parameter dicts). -/
def getKeyJ : List (Json × Json) → Json → Option Json
  | [], _ => none
  | (k2, v) :: rest, k => if scalarEq k2 k then some v else getKeyJ rest k

/-- Membership keyed by a JSON scalar. -/
def hasKeyJ (kvs : List (Json × Json)) (k : Json) : Bool := (getKeyJ kvs k).isSome

/-- Association assignment keyed by a JSON scalar (first position kept,
value replaced — Python dict-comprehension duplicate semantics). -/
def setKeyJ : List (Json × Json) → Json → Json → List (Json × Json)
  | [], k, v => [(k, v)]
  | (k2, v2) :: rest, k, v =>
    if scalarEq k2 k then (k, v) :: rest else (k2, v2) :: setKeyJ rest k v

/-- The query-parameter dict comprehension `{p.get("name"): p for p in params
if p.get("in") == "query"}`: non-dict entries crash at `.get`, unhashable
names crash as dict keys. -/
def buildParamsAux : List (Json × Json) → List Json → Option (List (Json × Json))
  | acc, [] => some acc
  | acc, p :: rest =>
    match p with
    | Json.obj pkvs =>
      if jsonIsStr (getKey pkvs "in") "query" then
        let name := (getKey pkvs "name").getD Json.null
        if isUnhashable name then none
        else buildParamsAux (setKeyJ acc name (Json.obj pkvs)) rest
      else buildParamsAux acc rest
    | _ => none

/-- Build the query-parameter dict of one operation side. -/
def buildParams (l : List Json) : Option (List (Json × Json)) := buildParamsAux [] l

/-- `param.get("schema", {}).get("type")` (the diff's recorded value); a
non-dict `schema` entry crashes. -/
def paramSchemaType (pkvs : List (String × Json)) : Option Json :=
  match getKeyD pkvs "schema" (Json.obj []) with
  | Json.obj skvs => some ((getKey skvs "type").getD Json.null)
  | _ => none

/-- The `missing_in_hadrian` diff for a query parameter. -/
def missingParamDiff (path : String) (name oval : Json) : SchemaDiff :=
  { path := path ++ " params", field := name, diff_type := DiffType.missing_in_hadrian,
    openai_value := oval, hadrian_value := Json.null,
    description := "Query parameter " ++ sqt ++ pyStr name ++ sqt ++ " missing in Hadrian" }

/-- The `undocumented_missing` violation for a query parameter. -/
def missingParamViol (path mu : String) (name : Json) : Violation :=
  { violation_type := "undocumented_missing", path := path, method := mu,
    field := name, location := "param",
    message := "Query parameter " ++ sqt ++ pyStr name ++ sqt ++
      " is missing but not documented in DOCUMENTED_MISSING_FIELDS" }

/-- Query-parameter loop over the reference side: parameters missing from the
implementation produce a diff and, when undocumented, a violation. -/
def paramMissingLoop (haParams : List (Json × Json)) (path mu : String) :
    List (Json × Json) → Option (List SchemaDiff × List Violation)
  | [] => some ([], [])
  | (name, pv) :: rest =>
    if hasKeyJ haParams name then paramMissingLoop haParams path mu rest
    else
      match pv with
      | Json.obj pkvs => do
        let oval ← paramSchemaType pkvs
        let (ds, ws) ← paramMissingLoop haParams path mu rest
        some (missingParamDiff path name oval :: ds,
          (if docHasJ path mu "param" name then [] else [missingParamViol path mu name]) ++ ws)
      | _ => none

/-- The `hadrian_extension` diff for a query parameter. -/
def extParamDiff (path : String) (name hval : Json) : SchemaDiff :=
  { path := path ++ " params", field := name, diff_type := DiffType.hadrian_extension,
    openai_value := Json.null, hadrian_value := hval,
    description := "Query parameter " ++ sqt ++ pyStr name ++ sqt ++ " is a Hadrian extension" }

/-- The `unmarked_extension` violation for a query parameter. -/
def extParamViol (path mu : String) (name : Json) : Violation :=
  { violation_type := "unmarked_extension", path := path, method := mu,
    field := name, location := "param",
    message := "Query parameter " ++ sqt ++ pyStr name ++ sqt ++
      " is a Hadrian extension but missing " ++ sqt ++ EXTENSION_MARKER ++ sqt
      ++ " in description" }

/-- Query-parameter loop over the implementation side: extension parameters
produce a diff and, when the description lacks the marker, a violation. -/
def paramExtLoop (oaParams : List (Json × Json)) (path mu : String) :
    List (Json × Json) → Option (List SchemaDiff × List Violation)
  | [] => some ([], [])
  | (name, pv) :: rest =>
    if hasKeyJ oaParams name then paramExtLoop oaParams path mu rest
    else
      match pv with
      | Json.obj pkvs => do
        let hval ← paramSchemaType pkvs
        let marked ← markerIn (getKeyD pkvs "description" (Json.str ""))
        let (ds, ws) ← paramExtLoop oaParams path mu rest
        some (extParamDiff path name hval :: ds,
          (if marked then [] else [extParamViol path mu name]) ++ ws)
      | _ => none

/-- One body comparison of `_compare_endpoint` (`if openai_body and
hadrian_body:` — both sides' schema must be truthy, otherwise the comparison
is skipped entirely).  The reference body is resolved against the reference
document's resolver and the implementation body against the implementation
document's resolver, as in the source. -/
def bodyCompare (fuel : Nat) (oaSpec haSpec : Json) (ctx path mu loc : String)
    (oaBody haBody : Json) : Option (List SchemaDiff × List Violation) :=
  if truthy oaBody && truthy haBody then do
    let roa ← resolveSchema fuel oaSpec oaBody
    let rha ← resolveSchema fuel haSpec haBody
    compareSchemas fuel ctx path mu loc roa rha
  else some ([], [])

/-- `ConformanceChecker._compare_endpoint`: request body, 200-response body
(each compared only when both sides' `application/json` schema is truthy),
then query parameters. -/
def compareEndpoint (fuel : Nat) (oaSpec haSpec : Json) (path method : String)
    (oaOp haOp : Json) : Option (EndpointDiff × List Violation) :=
  match oaOp, haOp with
  | Json.obj okvs, Json.obj hkvs => do
    let oaBody ← dig (Json.obj okvs) requestBodyPath
    let haBody ← dig (Json.obj hkvs) requestBodyPath
    let (reqD, reqV) ← bodyCompare fuel oaSpec haSpec (path ++ " request") path
      (strUpper method) "request" oaBody haBody
    let oaResp ← dig (Json.obj okvs) responseBodyPath
    let haResp ← dig (Json.obj hkvs) responseBodyPath
    let (respD, respV) ← bodyCompare fuel oaSpec haSpec (path ++ " response") path
      (strUpper method) "response" oaResp haResp
    let oaParamsRaw ← pyIter (getKeyD okvs "parameters" (Json.arr []))
    let haParamsRaw ← pyIter (getKeyD hkvs "parameters" (Json.arr []))
    let oaParams ← buildParams oaParamsRaw
    let haParams ← buildParams haParamsRaw
    let (pd1, pv1) ← paramMissingLoop haParams path (strUpper method) oaParams
    let (pd2, pv2) ← paramExtLoop oaParams path (strUpper method) haParams
    some ({ path := path, method := strUpper method, request_diffs := reqD,
            response_diffs := respD, param_diffs := pd1 ++ pd2,
            missing_in_hadrian := false, hadrian_extension := false },
          reqV ++ respV ++ pv1 ++ pv2)
  | _, _ => none

-- =========================================================================
-- ConformanceChecker.check_conformance
-- =========================================================================

/-- The HTTP methods iterated by `check_conformance`. -/
def httpMethods : List String := ["get", "post", "put", "patch", "delete"]

/-- The `EndpointDiff` recorded for a method absent from the implementation. -/
def missingEndpointDiff (oaPath m : String) : EndpointDiff :=
  { path := oaPath, method := strUpper m, request_diffs := [], response_diffs := [],
    param_diffs := [], missing_in_hadrian := true, hadrian_extension := false }

/-- The `missing_endpoint` violation. -/
def missingEndpointViol (oaPath m : String) : Violation :=
  { violation_type := "missing_endpoint", path := oaPath, method := strUpper m,
    field := Json.str "", location := "",
    message := "Endpoint " ++ strUpper m ++ " " ++ oaPath ++
      " is not implemented in Hadrian" }

/-- Body of the method loop of `check_conformance` for one method name:
skip methods absent from the reference operation dict and out-of-scope
methods; count the endpoint; a method absent from the implementation side
yields a `missing_endpoint` violation, otherwise the endpoint is compared and
classified as fully conformant or as having diffs. -/
def methodStep (fuel : Nat) (oaSpec haSpec : Json) (oaPath : String)
    (oaMethodsKvs haMethodsKvs : List (String × Json))
    (r : ConformanceReport) (m : String) : Option ConformanceReport :=
  match getKey oaMethodsKvs m with
  | none => some r
  | some oaOp =>
    if isMethodOutOfScope oaPath m then some r
    else
      let r1 := { r with endpoints_checked := r.endpoints_checked + 1 }
      match getKey haMethodsKvs m with
      | none =>
        some { r1 with
          endpoints_with_diffs := r1.endpoints_with_diffs ++ [missingEndpointDiff oaPath m],
          violations := r1.violations ++ [missingEndpointViol oaPath m] }
      | some haOp =>
        match compareEndpoint fuel oaSpec haSpec oaPath m oaOp haOp with
        | none => none
        | some (ed, vs) =>
          let r2 := { r1 with violations := r1.violations ++ vs }
          if ed.request_diffs.isEmpty && ed.response_diffs.isEmpty && ed.param_diffs.isEmpty then
            some { r2 with fully_conformant := r2.fully_conformant + 1 }
          else
            some { r2 with endpoints_with_diffs := r2.endpoints_with_diffs ++ [ed] }

/-- The implementation path for a reference path: the `PATH_MAPPING` entry
when present and truthy (`if not hadrian_path:`), the `/api/v1` prefix
otherwise. -/
def hadrianPathFor (p : String) : String :=
  match mappingGet PATH_MAPPING p with
  | some q => if q == "" then "/api/v1" ++ p else q
  | none => "/api/v1" ++ p

/-- The endpoint-filter skip condition
(`if endpoint_filter and endpoint_filter not in openai_path`). -/
def filterSkips (filt : Option String) (p : String) : Bool :=
  match filt with
  | some f => !(f == "") && !hasSubstr p f
  | none => false

/-- Body of the path loop of `check_conformance` for one reference path:
out-of-scope paths are recorded and skipped; a truthy endpoint filter not
occurring in the path skips it; otherwise the implementation path is obtained
from `PATH_MAPPING` (falling back to the `/api/v1` prefix) and the method loop
runs.  A non-dict methods value on either side is a failed run (Python's
`method not in ...` / `.get` would misbehave or crash on it). -/
def pathStep (fuel : Nat) (oaSpec haSpec : Json) (haPathsKvs : List (String × Json))
    (filt : Option String) (r : ConformanceReport) (entry : String × Json) :
    Option ConformanceReport :=
  if isOutOfScope entry.1 then
    some { r with out_of_scope_endpoints := r.out_of_scope_endpoints ++ [entry.1] }
  else if filterSkips filt entry.1 then some r
  else
    match entry.2 with
    | Json.obj oaMethodsKvs =>
      match getKeyD haPathsKvs (hadrianPathFor entry.1) (Json.obj []) with
      | Json.obj haMethodsKvs =>
        optFold (methodStep fuel oaSpec haSpec entry.1 oaMethodsKvs haMethodsKvs) r httpMethods
      | _ => none
    | _ => none

/-- Body of the Hadrian-only loop of `check_conformance` for one implementation
path: `/admin/` paths and `PATH_MAPPING` targets are skipped; only paths under
`/api/v1/` whose stripped form (`replace("/api/v1/", "/")`) is absent from the
reference paths are recorded as extensions. -/
def hadrianOnlyStep (oaPathsKvs : List (String × Json)) (r : ConformanceReport)
    (entry : String × Json) : ConformanceReport :=
  if strStarts entry.1 "/admin/" then r
  else if PATH_MAPPING.any (fun kv => kv.2 == entry.1) then r
  else if strStarts entry.1 "/api/v1/" then
    if hasKey oaPathsKvs (pyReplace entry.1 "/api/v1/" "/") then r
    else { r with hadrian_only_endpoints := r.hadrian_only_endpoints ++ [entry.1] }
  else r

/-- The report `check_conformance` starts from. -/
def initReport (oaInfo haInfo oaPathsKvs haPathsKvs : List (String × Json)) :
    ConformanceReport :=
  { openai_version := getKeyD oaInfo "version" (Json.str "unknown"),
    hadrian_version := getKeyD haInfo "version" (Json.str "unknown"),
    total_openai_endpoints := oaPathsKvs.length,
    total_hadrian_endpoints := haPathsKvs.length,
    endpoints_checked := 0, fully_conformant := 0,
    endpoints_with_diffs := [], out_of_scope_endpoints := [],
    hadrian_only_endpoints := [], violations := [] }

/-- `ConformanceChecker.check_conformance`: build the initial report, run the
reference-path loop, then the Hadrian-only loop.  `filt` is the optional
`endpoint_filter` argument (`none` is the default full check). -/
def checkConformance (fuel : Nat) (filt : Option String) (oaSpec haSpec : Json) :
    Option ConformanceReport :=
  match oaSpec, haSpec with
  | Json.obj oaKvs, Json.obj haKvs =>
    match getKeyD oaKvs "paths" (Json.obj []), getKeyD haKvs "paths" (Json.obj []) with
    | Json.obj oaPathsKvs, Json.obj haPathsKvs =>
      match getKeyD oaKvs "info" (Json.obj []), getKeyD haKvs "info" (Json.obj []) with
      | Json.obj oaInfo, Json.obj haInfo =>
        match optFold (pathStep fuel (Json.obj oaKvs) (Json.obj haKvs) haPathsKvs filt)
                (initReport oaInfo haInfo oaPathsKvs haPathsKvs) oaPathsKvs with
        | none => none
        | some r1 => some (haPathsKvs.foldl (hadrianOnlyStep oaPathsKvs) r1)
      | _, _ => none
    | _, _ => none
  | _, _ => none

-- =========================================================================
-- Inputs and helpers used by the claim theorems
-- =========================================================================

/-- Top-level `type` entry of an object schema (a discriminating projection
used to separate structurally different resolution results). -/
def topType : Json → Option Json
  | Json.obj kvs => getKey kvs "type"
  | _ => none

/-- Mirrors `resolve_ref`'s lookup loop and reports whether it ever asks a
dict for a key it does not have (the "absent path segment" condition of the
specification). -/
def absentSomewhere : Json → List String → Bool
  | _, [] => false
  | Json.obj kvs, p :: ps =>
    match getKey kvs p with
    | none => true
    | some v => absentSomewhere v ps
  | _, _ :: _ => false

/-- A document whose schema `Self` is its own `$ref` target. -/
def cycSelfDoc : Json :=
  Json.obj [("components", Json.obj [("schemas", Json.obj [
    ("Self", Json.obj [("$ref", Json.str "#/components/schemas/Self")])])])]

/-- The self-referential node of `cycSelfDoc`. -/
def cycSelfNode : Json := Json.obj [("$ref", Json.str "#/components/schemas/Self")]

/-- One unfolding of the resolver on the self-referential node: the step
burns one unit of fuel and asks for the very same resolution again. -/
theorem cycSelf_step (n : Nat) :
    resolveSchema (n + 1) cycSelfDoc cycSelfNode =
      Option.bind (resolveSchema n cycSelfDoc cycSelfNode)
        (fun resolved =>
          match resolved with
          | Json.obj rkvs =>
            some (Json.obj (overlay rkvs [("$ref", Json.str "#/components/schemas/Self")] "$ref"))
          | _ => none) := rfl

/-- Walking any remaining path from an empty dict stays at the empty dict. -/
theorem walk_empty_obj (ps : List String) : walk (Json.obj []) ps = some (Json.obj []) := by
  induction ps with
  | nil => rfl
  | cons p ps ih => simpa [walk, getKeyD, getKey] using ih

/-- If the lookup loop meets an absent segment, it ends at the empty dict. -/
theorem absent_walk (ps : List String) (doc : Json)
    (h : absentSomewhere doc ps = true) : walk doc ps = some (Json.obj []) := by
  induction ps generalizing doc with
  | nil => simp [absentSomewhere] at h
  | cons p ps ih =>
    cases doc with
    | obj kvs =>
      cases hk : getKey kvs p with
      | none =>
        show walk (getKeyD kvs p (Json.obj [])) ps = some (Json.obj [])
        rw [getKeyD, hk]
        exact walk_empty_obj ps
      | some v =>
        have hv : absentSomewhere v ps = true := by
          simpa [absentSomewhere, hk] using h
        show walk (getKeyD kvs p (Json.obj [])) ps = some (Json.obj [])
        rw [getKeyD, hk]
        exact ih v hv
    | null => simp [absentSomewhere] at h
    | bool b => simp [absentSomewhere] at h
    | num m => simp [absentSomewhere] at h
    | str s => simp [absentSomewhere] at h
    | arr l => simp [absentSomewhere] at h

/-- Resolving the empty dict succeeds immediately (all branch keys absent). -/
theorem resolveSchema_empty_obj (n : Nat) (doc : Json) :
    resolveSchema (n + 1) doc (Json.obj []) = some (Json.obj []) := rfl

-- =========================================================================
-- C2: cyclic $ref chains
-- =========================================================================

set_option maxRecDepth 40000 in
/-- C2 counterexample.  The claim says resolution of a cyclic `$ref` chain
terminates under a recursion cap (e.g. 64) with an "unresolved" placeholder.
On the self-referential schema of `cycSelfDoc`, resolution has produced no
result after 64 levels of recursion, nor after 100, and `resolve_ref` on the
cyclic reference behaves the same: there is no cap and no placeholder. -/
theorem C2_counterexample :
    resolveSchema 64 cycSelfDoc cycSelfNode = none ∧
    resolveSchema 100 cycSelfDoc cycSelfNode = none ∧
    resolveRef 100 cycSelfDoc "#/components/schemas/Self" = none :=
  ⟨rfl, rfl, rfl⟩

/-- C2 amended.  Resolution of a self-referential `$ref` does not terminate at
any recursion depth: the source has no depth cap, the cache entry for a
reference is registered only after its resolution completes (hence cannot cut
the cycle), and no "unresolved" placeholder is ever produced — the Python run
recurses to the interpreter stack limit and the resulting `RecursionError`
aborts the whole run (`none` at every fuel). -/
theorem C2_cyclic_ref_diverges (n : Nat) :
    resolveSchema n cycSelfDoc cycSelfNode = none := by
  induction n with
  | zero => rfl
  | succ n ih => rw [cycSelf_step, ih]; rfl

-- =========================================================================
-- C4: dangling / malformed references degrade to the empty schema
-- =========================================================================

/-- C4.  A `$ref` whose path has a segment absent from the owning document
resolves to the empty object schema, and never aborts the run; likewise a
reference that does not start with `#/`, and one whose lookup walks into a
non-dict value (the source's early `return {}`). -/
theorem C4_dangling_ref_degrades (n : Nat) (doc : Json) (ref : String) :
    (strStarts ref "#/" = true →
      absentSomewhere doc (splitSlash (strDropTwo ref)) = true →
      resolveRef (n + 1) doc ref = some (Json.obj [])) ∧
    (strStarts ref "#/" = false → resolveRef n doc ref = some (Json.obj [])) ∧
    (strStarts ref "#/" = true →
      walk doc (splitSlash (strDropTwo ref)) = none →
      resolveRef n doc ref = some (Json.obj [])) := by
  refine ⟨fun h1 h2 => ?_, fun h1 => ?_, fun h1 h2 => ?_⟩
  · have hw := absent_walk _ doc h2
    simp only [resolveRef, resolveRefWith, h1, hw, Bool.not_true, Bool.false_eq_true, if_false]
    exact resolveSchema_empty_obj n doc
  · simp [resolveRef, resolveRefWith, h1]
  · simp [resolveRef, resolveRefWith, h1, h2]

/-- Document used by the C4 witness: `components.schemas` has no entry. -/
def c4doc : Json := Json.obj [("components", Json.obj [("schemas", Json.obj [])])]

/-- C4 witness: a dangling reference into `c4doc` (segment `Missing` absent)
resolves to the empty object schema. -/
theorem C4_witness :
    strStarts "#/components/schemas/Missing" "#/" = true ∧
    absentSomewhere c4doc (splitSlash (strDropTwo "#/components/schemas/Missing")) = true ∧
    resolveRef 2 c4doc "#/components/schemas/Missing" = some (Json.obj []) :=
  ⟨rfl, rfl, (C4_dangling_ref_degrades 1 c4doc "#/components/schemas/Missing").1 rfl rfl⟩

-- =========================================================================
-- C6: type classifier rules for arrays and objects
-- =========================================================================

/-- C6.  The classifier's rules for arrays and objects: a schema of type
`array` classifies as `array<` ++ classifier of `items` ++ `>` (with `items`
defaulting to the empty schema, whose class is `unknown`); a schema of type
`object` classifies as `map<string, ` ++ classifier of the
`additionalProperties` schema ++ `>` when that key is present, and as the
literal `object` when it is absent. -/
theorem C6_type_classifier_rules (n : Nat) (kvs : List (String × Json)) (it ap : Json)
    (t u : String) :
    (getKey kvs "type" = some (Json.str "array") → getKey kvs "items" = some it →
      getTypeString n it = some t →
      getTypeString (n + 1) (Json.obj kvs) = some ("array<" ++ t ++ ">")) ∧
    (getKey kvs "type" = some (Json.str "array") → getKey kvs "items" = none →
      getTypeString (n + 2) (Json.obj kvs) = some "array<unknown>") ∧
    (getKey kvs "type" = some (Json.str "object") →
      getKey kvs "additionalProperties" = some ap →
      getTypeString n ap = some u →
      getTypeString (n + 1) (Json.obj kvs) = some ("map<string, " ++ u ++ ">")) ∧
    (getKey kvs "type" = some (Json.str "object") →
      getKey kvs "additionalProperties" = none →
      getTypeString (n + 1) (Json.obj kvs) = some "object") := by
  refine ⟨fun h1 h2 h3 => ?_, fun h1 h2 => ?_, fun h1 h2 h3 => ?_, fun h1 h2 => ?_⟩
  · simp [getTypeString, getTypeStep, normalizeType, jsonIsStr, getKeyD, h1, h2, h3]
  · simp only [getTypeString, getTypeStep, normalizeType, jsonIsStr, getKeyD, h1, h2,
      Option.getD, Option.bind]
    rfl
  · simp [getTypeString, getTypeStep, normalizeType, jsonIsStr, getKeyD, h1, h2, h3]
  · simp [getTypeString, getTypeStep, normalizeType, jsonIsStr, getKeyD, h1, h2]

/-- C6 witness: the four rules evaluated on concrete schemas. -/
theorem C6_witness :
    getTypeString 2 (Json.obj [("type", Json.str "array"),
      ("items", Json.obj [("type", Json.str "string")])]) = some "array<string>" ∧
    getTypeString 3 (Json.obj [("type", Json.str "array")]) = some "array<unknown>" ∧
    getTypeString 2 (Json.obj [("type", Json.str "object"),
      ("additionalProperties", Json.obj [("type", Json.str "integer")])]) =
        some "map<string, integer>" ∧
    getTypeString 2 (Json.obj [("type", Json.str "object")]) = some "object" :=
  ⟨(C6_type_classifier_rules 1 _ (Json.obj [("type", Json.str "string")]) Json.null
      "string" "u").1 rfl rfl rfl,
   (C6_type_classifier_rules 1 _ Json.null Json.null "t" "u").2.1 rfl rfl,
   (C6_type_classifier_rules 1 _ Json.null (Json.obj [("type", Json.str "integer")])
      "t" "integer").2.2.1 rfl rfl rfl,
   (C6_type_classifier_rules 1 _ Json.null Json.null "t" "u").2.2.2 rfl rfl⟩

-- =========================================================================
-- C3: oneOf / anyOf resolution
-- =========================================================================

/-- Document used by the C3 counterexample: `NullT` is a named null-type
schema. -/
def c3Doc : Json :=
  Json.obj [("components", Json.obj [("schemas", Json.obj [
    ("NullT", Json.obj [("type", Json.str "null")])])])]

/-- A `oneOf` whose first branch is a `$ref` to `NullT` (its *resolved* type is
`"null"` but its literal `type` key is absent) and whose second branch is a
string schema. -/
def c3Node : Json :=
  Json.obj [("oneOf", Json.arr [
    Json.obj [("$ref", Json.str "#/components/schemas/NullT")],
    Json.obj [("type", Json.str "string")]])]

/-- C3 counterexample.  The claim says branches whose *resolved* type is
`"null"` are filtered out, so resolving `c3Node` should resolve the remaining
string branch and equal that result with `nullable=true` added.  The source
filters on the branch's *literal* `type` key instead
(`isinstance(opt, dict) and opt.get("type") == "null"`), keeps the `$ref`
branch, and returns a null-typed result: not the string branch's resolution
with the nullable mark (the two results differ in their `type` entry, so no
dict-ordering convention can make them equal). -/
theorem C3_counterexample :
    resolveSchema 10 c3Doc c3Node =
      some (Json.obj [("type", Json.str "null"), ("_nullable", Json.bool true)]) ∧
    resolveSchema 10 c3Doc (Json.obj [("type", Json.str "string")]) =
      some (Json.obj [("type", Json.str "string")]) ∧
    Json.obj [("type", Json.str "null"), ("_nullable", Json.bool true)] ≠
      Json.obj [("type", Json.str "string"), ("_nullable", Json.bool true)] := by
  refine ⟨rfl, rfl, fun h => ?_⟩
  have h2 : topType (Json.obj [("type", Json.str "null"), ("_nullable", Json.bool true)]) =
      topType (Json.obj [("type", Json.str "string"), ("_nullable", Json.bool true)]) :=
    congrArg topType h
  simp [topType, getKey] at h2

/-- C3 amended.  On a node carrying `oneOf`/`anyOf` (and no `$ref`/`allOf`),
the resolver picks the `oneOf` list when it is present and truthy (an empty
`oneOf` falls through to `anyOf`), filters out the branches whose *literal*
`type` key is exactly `"null"` (without resolving them), resolves the first
remaining branch in listed order and adds `_nullable = true` to it (failing if
that resolution is not a dict), and returns the null-type nullable schema when
no branch remains.  In particular a node with one literal-null branch and one
other branch resolves to the other branch's resolution with `_nullable = true`
added. -/
theorem C3_one_of_literal_null_filter (n : Nat) (doc : Json) (kvs : List (String × Json))
    (l : List Json)
    (h1 : getKey kvs "$ref" = none) (h2 : getKey kvs "allOf" = none)
    (h3 : (hasKey kvs "oneOf" || hasKey kvs "anyOf") = true)
    (h4 : (match getKey kvs "oneOf" with
           | some v => if truthy v then v else getKeyD kvs "anyOf" (Json.arr [])
           | none => getKeyD kvs "anyOf" (Json.arr [])) = Json.arr l) :
    resolveSchema (n + 1) doc (Json.obj kvs) =
      (match l.filter (fun o => !isNullTypeLit o) with
       | o :: _ =>
         (resolveSchema n doc o).bind
           (fun r =>
             match r with
             | Json.obj rkvs => some (Json.obj (setKey rkvs "_nullable" (Json.bool true)))
             | _ => none)
       | [] => some (Json.obj [("type", Json.str "null"), ("_nullable", Json.bool true)])) := by
  show resolveStep (fun j => resolveSchema n doc j) doc (Json.obj kvs) = _
  rw [resolveStep, h1, h2, if_pos h3, h4]
  cases hf : l.filter (fun o => !isNullTypeLit o) with
  | nil => simp [pyIter, hf, Option.bind]
  | cons o rest => simp [pyIter, hf, Option.bind]

/-- C3 witness: a node with exactly one literal-null branch and one string
branch resolves to the string branch with `_nullable = true` added. -/
theorem C3_witness :
    resolveSchema 4 (Json.obj [])
      (Json.obj [("oneOf", Json.arr [Json.obj [("type", Json.str "null")],
        Json.obj [("type", Json.str "string")]])]) =
      some (Json.obj [("type", Json.str "string"), ("_nullable", Json.bool true)]) := by
  have h := C3_one_of_literal_null_filter 3 (Json.obj [])
    [("oneOf", Json.arr [Json.obj [("type", Json.str "null")],
      Json.obj [("type", Json.str "string")]])]
    [Json.obj [("type", Json.str "null")], Json.obj [("type", Json.str "string")]]
    rfl rfl rfl rfl
  exact h

-- =========================================================================
-- C7: idempotence of resolution
-- =========================================================================

/-- Node of the C7 counterexample: an empty `allOf` with a `oneOf` sibling. -/
def c7Node : Json :=
  Json.obj [("allOf", Json.arr []),
            ("oneOf", Json.arr [Json.obj [("type", Json.str "string")]])]

/-- First resolution of `c7Node`: the `allOf` accumulator with the `oneOf`
sibling copied onto it unresolved. -/
def c7Once : Json :=
  Json.obj [("type", Json.str "object"), ("properties", Json.obj []),
            ("required", Json.arr []),
            ("oneOf", Json.arr [Json.obj [("type", Json.str "string")]])]

/-- Second resolution: the surviving `oneOf` marker now fires. -/
def c7Twice : Json :=
  Json.obj [("type", Json.str "string"), ("_nullable", Json.bool true)]

/-- C7 counterexample.  Resolution is not idempotent and its result can retain
composition markers: resolving `c7Node` once leaves a live `oneOf` key in the
result (sibling keys of an `allOf` node are copied over unresolved), and
resolving that result again yields a different schema — the two results even
disagree on their `type` entry, so Python's order-insensitive dict equality
would also distinguish them. -/
theorem C7_counterexample :
    resolveSchema 5 (Json.obj []) c7Node = some c7Once ∧
    resolveSchema 5 (Json.obj []) c7Once = some c7Twice ∧
    hasKey [("type", Json.str "object"), ("properties", Json.obj []),
            ("required", Json.arr []),
            ("oneOf", Json.arr [Json.obj [("type", Json.str "string")]])] "oneOf" = true ∧
    c7Once ≠ c7Twice := by
  refine ⟨rfl, rfl, rfl, fun h => ?_⟩
  have h2 : topType c7Once = topType c7Twice := congrArg topType h
  simp [topType, c7Once, c7Twice, getKey] at h2

/-- Schemas with no `$ref`/`allOf`/`oneOf`/`anyOf` marker at any level reached
by the resolver: one step of the check, parameterized by the recursive check
on property values, `items` and `additionalProperties`. -/
def noMarkersStep (rec : Json → Bool) : Json → Bool
  | Json.obj kvs =>
    !hasKey kvs "$ref" && !hasKey kvs "allOf" && !hasKey kvs "oneOf" && !hasKey kvs "anyOf" &&
    (match getKey kvs "properties" with
     | none => true
     | some (Json.obj pkvs) => pkvs.all (fun kv => rec kv.2)
     | some _ => false) &&
    (match getKey kvs "items" with
     | none => true
     | some it => rec it) &&
    (match getKey kvs "additionalProperties" with
     | some (Json.obj av) => rec (Json.obj av)
     | _ => true)
  | _ => true

/-- Marker-freeness with the same fuel discipline as the resolver. -/
def noMarkers : Nat → Json → Bool
  | 0, _ => false
  | n + 1, s => noMarkersStep (fun j => noMarkers n j) s

/-- Writing back the value a key already holds changes nothing. -/
theorem setKey_self (kvs : List (String × Json)) (k : String) (v : Json)
    (h : getKey kvs k = some v) : setKey kvs k v = kvs := by
  induction kvs with
  | nil => simp [getKey] at h
  | cons kv rest ih =>
    obtain ⟨k2, v2⟩ := kv
    rw [getKey] at h
    rw [setKey]
    by_cases hk : k2 = k
    · rw [if_pos hk] at h ⊢
      injection h with hv
      subst hv
      subst hk
      rfl
    · rw [if_neg hk] at h ⊢
      rw [ih h]

/-- Absent keys through `hasKey`. -/
theorem getKey_eq_none (kvs : List (String × Json)) (k : String)
    (h : hasKey kvs k = false) : getKey kvs k = none := by
  rw [hasKey] at h
  cases hg : getKey kvs k with
  | none => rfl
  | some v => rw [hg] at h; cases h

/-- A value-preserving monadic map is the identity. -/
theorem mapValsM_self (f : Json → Option Json) (l : List (String × Json))
    (h : ∀ kv ∈ l, f kv.2 = some kv.2) : mapValsM f l = some l := by
  induction l with
  | nil => rfl
  | cons kv rest ih =>
    have h1 := h kv (List.mem_cons_self kv rest)
    have h2 : ∀ kv2 ∈ rest, f kv2.2 = some kv2.2 := fun kv2 hm => h kv2 (List.mem_cons_of_mem kv hm)
    obtain ⟨k, v⟩ := kv
    simp only [mapValsM, h1, ih h2]
    rfl

/-- C7 amended, part 1 (helper): the resolver is the identity on schemas free
of `$ref`/`allOf`/`oneOf`/`anyOf` markers at every level it visits. -/
theorem resolveSchema_noMarkers_fixed :
    ∀ (n : Nat) (doc s : Json), noMarkers n s = true → resolveSchema n doc s = some s := by
  intro n
  induction n with
  | zero => intro doc s h; rw [noMarkers] at h; cases h
  | succ n ih =>
    intro doc s h
    cases s with
    | null => rfl
    | bool b => rfl
    | num m => rfl
    | str s2 => rfl
    | arr l => rfl
    | obj kvs =>
      rw [noMarkers, noMarkersStep] at h
      simp only [Bool.and_eq_true] at h
      obtain ⟨⟨⟨⟨⟨⟨h1, h2⟩, h3⟩, h4⟩, h5⟩, h6⟩, h7⟩ := h
      simp only [Bool.not_eq_true'] at h1 h2 h3 h4
      have hr1 : propsResolve (fun j => resolveSchema n doc j) kvs = some kvs := by
        rw [propsResolve]
        cases hp : getKey kvs "properties" with
        | none => rfl
        | some props =>
          rw [hp] at h5
          cases props with
          | obj pkvs =>
            have hall : ∀ kv ∈ pkvs, resolveSchema n doc kv.2 = some kv.2 := by
              intro kv hm
              exact ih doc kv.2 (List.all_eq_true.mp h5 kv hm)
            show (do
              let rp ← mapValsM (fun j => resolveSchema n doc j) pkvs
              some (setKey kvs "properties" (Json.obj rp))) = some kvs
            rw [mapValsM_self (fun j => resolveSchema n doc j) pkvs hall]
            show some (setKey kvs "properties" (Json.obj pkvs)) = some kvs
            rw [setKey_self kvs "properties" (Json.obj pkvs) hp]
          | null => cases h5
          | bool b => cases h5
          | num m => cases h5
          | str s2 => cases h5
          | arr l => cases h5
      have hr2 : itemsResolve (fun j => resolveSchema n doc j) kvs = some kvs := by
        rw [itemsResolve]
        cases hi : getKey kvs "items" with
        | none => rfl
        | some it =>
          rw [hi] at h6
          show (do
            let ri ← resolveSchema n doc it
            some (setKey kvs "items" ri)) = some kvs
          rw [ih doc it h6]
          show some (setKey kvs "items" it) = some kvs
          rw [setKey_self kvs "items" it hi]
      have hr3 : addPropsResolve (fun j => resolveSchema n doc j) kvs = some kvs := by
        rw [addPropsResolve]
        cases ha : getKey kvs "additionalProperties" with
        | none => rfl
        | some ap =>
          cases ap with
          | obj apkvs =>
            rw [ha] at h7
            show (do
              let ra ← resolveSchema n doc (Json.obj apkvs)
              some (setKey kvs "additionalProperties" ra)) = some kvs
            rw [ih doc (Json.obj apkvs) h7]
            show some (setKey kvs "additionalProperties" (Json.obj apkvs)) = some kvs
            rw [setKey_self kvs "additionalProperties" (Json.obj apkvs) ha]
          | null => rfl
          | bool b => rfl
          | num m => rfl
          | str s2 => rfl
          | arr l => rfl
      show resolveStep (fun j => resolveSchema n doc j) doc (Json.obj kvs) = some (Json.obj kvs)
      rw [resolveStep, getKey_eq_none kvs "$ref" h1, getKey_eq_none kvs "allOf" h2, h3, h4]
      rw [if_neg (by simp)]
      show leafResolve (fun j => resolveSchema n doc j) kvs = some (Json.obj kvs)
      rw [leafResolve, hr1]
      show (do
        let r2 ← itemsResolve (fun j => resolveSchema n doc j) kvs
        let r3 ← addPropsResolve (fun j => resolveSchema n doc j) r2
        some (Json.obj r3)) = some (Json.obj kvs)
      rw [hr2]
      show (do
        let r3 ← addPropsResolve (fun j => resolveSchema n doc j) kvs
        some (Json.obj r3)) = some (Json.obj kvs)
      rw [hr3]
      rfl

/-- C7 amended.  Resolution is not idempotent in general (see the
counterexample: sibling keys of `$ref`/`allOf` nodes are copied into the
result unresolved, so markers can survive one resolution); it is idempotent on
marker-free schemas, where resolution is the identity, so
`resolve (resolve s) = resolve s` holds there. -/
theorem C7_resolution_idempotent_on_marker_free (n : Nat) (doc s : Json)
    (h : noMarkers n s = true) :
    resolveSchema n doc s = some s ∧
    (resolveSchema n doc s).bind (resolveSchema n doc) = resolveSchema n doc s := by
  have h1 := resolveSchema_noMarkers_fixed n doc s h
  refine ⟨h1, ?_⟩
  rw [h1]
  exact h1

/-- Marker-free schema used by the C7 witness. -/
def c7wSchema : Json :=
  Json.obj [("type", Json.str "object"),
            ("properties", Json.obj [("a", Json.obj [("type", Json.str "string")])]),
            ("required", Json.arr [Json.str "a"])]

/-- C7 witness: on a concrete marker-free schema, resolution is the identity
and hence idempotent. -/
theorem C7_witness :
    noMarkers 3 c7wSchema = true ∧
    resolveSchema 3 (Json.obj []) c7wSchema = some c7wSchema ∧
    (resolveSchema 3 (Json.obj []) c7wSchema).bind (resolveSchema 3 (Json.obj [])) =
      resolveSchema 3 (Json.obj []) c7wSchema :=
  ⟨rfl, (C7_resolution_idempotent_on_marker_free 3 (Json.obj []) c7wSchema rfl).1,
    (C7_resolution_idempotent_on_marker_free 3 (Json.obj []) c7wSchema rfl).2⟩

-- =========================================================================
-- C9: endpoints_checked = fully_conformant + |endpoints_with_diffs|
-- =========================================================================

/-- The counting invariant of the report. -/
def countInv (r : ConformanceReport) : Prop :=
  r.endpoints_checked = r.fully_conformant + r.endpoints_with_diffs.length

/-- Each method-loop step either leaves the three counters alone or increments
`endpoints_checked` together with exactly one of `fully_conformant` /
`endpoints_with_diffs`. -/
theorem methodStep_preserves_count (fuel : Nat) (oa ha : Json) (p : String)
    (ok hk : List (String × Json)) (r r' : ConformanceReport) (m : String)
    (h : methodStep fuel oa ha p ok hk r m = some r') (hP : countInv r) : countInv r' := by
  rw [countInv] at hP ⊢
  rw [methodStep] at h
  split at h
  · cases h; exact hP
  · split at h
    · cases h; exact hP
    · split at h
      · cases h
        simp [List.length_append]
        omega
      · split at h
        · cases h
        · split at h
          · cases h
            simp
            omega
          · cases h
            simp [List.length_append]
            omega

/-- Preservation of a property through `optFold`. -/
theorem optFold_preserves {α β : Type} (step : β → α → Option β) (P : β → Prop)
    (hstep : ∀ r x r', step r x = some r' → P r → P r') :
    ∀ (l : List α) (r r' : β), optFold step r l = some r' → P r → P r' := by
  intro l
  induction l with
  | nil =>
    intro r r' h hP
    rw [optFold] at h
    cases h
    exact hP
  | cons x rest ih =>
    intro r r' h hP
    rw [optFold] at h
    cases hs : step r x with
    | none => rw [hs] at h; cases h
    | some r2 =>
      rw [hs] at h
      exact ih r2 r' h (hstep r x r2 hs hP)

/-- Each path-loop step preserves the counting invariant. -/
theorem pathStep_preserves_count (fuel : Nat) (oa ha : Json)
    (hps : List (String × Json)) (filt : Option String) (r r' : ConformanceReport)
    (e : String × Json) (h : pathStep fuel oa ha hps filt r e = some r')
    (hP : countInv r) : countInv r' := by
  rw [pathStep.eq_def] at h
  split at h
  · cases h; exact hP
  · split at h
    · cases h; exact hP
    · split at h
      · split at h
        · exact optFold_preserves _ countInv
            (fun r2 m r3 hm hP2 => methodStep_preserves_count fuel oa ha e.1 _ _ r2 r3 m hm hP2)
            httpMethods r r' h hP
        · cases h
      · cases h

/-- The Hadrian-only loop never touches the counters. -/
theorem hadrianOnlyFold_preserves_count (oaP : List (String × Json)) :
    ∀ (l : List (String × Json)) (r : ConformanceReport), countInv r →
      countInv (l.foldl (hadrianOnlyStep oaP) r) := by
  intro l
  induction l with
  | nil => intro r hP; exact hP
  | cons e rest ih =>
    intro r hP
    refine ih (hadrianOnlyStep oaP r e) ?_
    rw [hadrianOnlyStep]
    split
    · exact hP
    · split
      · exact hP
      · split
        · split
          · exact hP
          · exact hP
        · exact hP

/-- C9.  In every report the conformance check returns, the endpoints-checked
count equals the fully-conformant count plus the number of entries of the
endpoints-with-diffs list: each in-scope (path, method) pair that is counted
increments exactly one of the two (a missing endpoint contributes an
`endpoints_with_diffs` entry). -/
theorem C9_checked_splits_into_conformant_and_diffs (fuel : Nat) (filt : Option String)
    (oa ha : Json) (r : ConformanceReport) (h : checkConformance fuel filt oa ha = some r) :
    r.endpoints_checked = r.fully_conformant + r.endpoints_with_diffs.length := by
  rw [checkConformance.eq_def] at h
  split at h
  case _ oaKvs haKvs =>
    split at h
    case _ oaPathsKvs haPathsKvs =>
      split at h
      case _ oaInfo haInfo =>
        split at h
        case _ => cases h
        case _ r1 hf =>
          cases h
          refine hadrianOnlyFold_preserves_count _ _ r1 ?_
          refine optFold_preserves _ countInv
            (fun r2 e r3 he hP2 => pathStep_preserves_count fuel _ _ _ filt r2 r3 e he hP2)
            _ _ r1 hf ?_
          rw [countInv]
          rfl
      case _ => cases h
    case _ => cases h
  case _ => cases h

/-- Reference document of the C9 witness. -/
def c9oa : Json := Json.obj [("paths", Json.obj [("/zzz", Json.obj [("get", Json.obj [])])])]

/-- Implementation document of the C9 witness. -/
def c9ha : Json :=
  Json.obj [("paths", Json.obj [("/api/v1/zzz", Json.obj [("get", Json.obj [])])])]

/-- The report the model computes for the C9 witness documents. -/
def c9rep : ConformanceReport :=
  { openai_version := Json.str "unknown", hadrian_version := Json.str "unknown",
    total_openai_endpoints := 1, total_hadrian_endpoints := 1,
    endpoints_checked := 1, fully_conformant := 1,
    endpoints_with_diffs := [], out_of_scope_endpoints := [],
    hadrian_only_endpoints := [], violations := [] }

/-- C9 witness: a concrete run with one checked, fully conformant endpoint. -/
theorem C9_witness :
    checkConformance 8 none c9oa c9ha = some c9rep ∧
    c9rep.endpoints_checked = c9rep.fully_conformant + c9rep.endpoints_with_diffs.length :=
  ⟨rfl, C9_checked_splits_into_conformant_and_diffs 8 none c9oa c9ha c9rep rfl⟩

-- =========================================================================
-- Shape of the violations produced by schema / parameter comparison
-- =========================================================================

/-- Shape of every violation `_compare_schemas` can produce: it carries the
endpoint path, method and location it was called with, and is either an
`undocumented_missing` violation whose key is absent from
`DOCUMENTED_MISSING_FIELDS` or an `unmarked_extension` violation. -/
def violShape (path method loc : String) (vi : Violation) : Prop :=
  vi.path = path ∧ vi.method = method ∧ vi.location = loc ∧
  ((vi.violation_type = "undocumented_missing" ∧ docHasJ path method loc vi.field = false) ∨
   vi.violation_type = "unmarked_extension")

/-- Violations of the missing-field loop. -/
theorem missingLoop_viols (cls : Json → Option String) (haProps : List (String × Json))
    (oaReq : List Json) (ctx path method loc : String) :
    ∀ (l : List (String × Json)) (d : List SchemaDiff) (v : List Violation),
      missingLoop cls haProps oaReq ctx path method loc l = some (d, v) →
      ∀ vi ∈ v, violShape path method loc vi := by
  intro l
  induction l with
  | nil =>
    intro d v h vi hm
    rw [missingLoop] at h
    cases h
    simp at hm
  | cons fv rest ih =>
    obtain ⟨f, ov⟩ := fv
    intro d v h vi hm
    rw [missingLoop] at h
    by_cases hk : hasKey haProps f = true
    · rw [if_pos hk] at h
      exact ih d v h vi hm
    · rw [if_neg hk] at h
      obtain ⟨ft, hc, h⟩ := Option.bind_eq_some.mp h
      obtain ⟨⟨ds, ws⟩, h2, h⟩ := Option.bind_eq_some.mp h
      cases h
      rcases List.mem_append.mp hm with hm1 | hm2
      · by_cases hdoc : docHas path method loc f = true
        · rw [if_pos hdoc] at hm1
          simp at hm1
        · rw [if_neg hdoc] at hm1
          simp only [List.mem_singleton] at hm1
          subst hm1
          refine ⟨rfl, rfl, rfl, Or.inl ⟨rfl, ?_⟩⟩
          simp only [missingFieldViol, docHasJ]
          simpa using hdoc
      · exact ih ds ws h2 vi hm2

/-- Violations of the extension-field loop. -/
theorem extLoop_viols (cls : Json → Option String) (oaProps : List (String × Json))
    (ctx path method loc : String) :
    ∀ (l : List (String × Json)) (d : List SchemaDiff) (v : List Violation),
      extLoop cls oaProps ctx path method loc l = some (d, v) →
      ∀ vi ∈ v, violShape path method loc vi := by
  intro l
  induction l with
  | nil =>
    intro d v h vi hm
    rw [extLoop] at h
    cases h
    simp at hm
  | cons fv rest ih =>
    obtain ⟨f, hv⟩ := fv
    intro d v h vi hm
    rw [extLoop] at h
    by_cases hk : hasKey oaProps f = true
    · rw [if_pos hk] at h
      exact ih d v h vi hm
    · rw [if_neg hk] at h
      obtain ⟨ft, hc, h⟩ := Option.bind_eq_some.mp h
      cases hv with
      | obj hkvs =>
        obtain ⟨marked, hmk, h⟩ := Option.bind_eq_some.mp h
        obtain ⟨⟨ds, ws⟩, h2, h⟩ := Option.bind_eq_some.mp h
        cases h
        rcases List.mem_append.mp hm with hm1 | hm2
        · by_cases hmrk : marked = true
          · rw [if_pos hmrk] at hm1
            simp at hm1
          · rw [if_neg hmrk] at hm1
            simp only [List.mem_singleton] at hm1
            subst hm1
            exact ⟨rfl, rfl, rfl, Or.inr rfl⟩
        · exact ih ds ws h2 vi hm2
      | null => cases h
      | bool b => cases h
      | num m2 => cases h
      | str s2 => cases h
      | arr l2 => cases h

/-- Violations of the nested-object recursion, given the shape of the
recursive comparison's violations. -/
theorem nestedCompare_viols (rec : String → Json → Json → Option (List SchemaDiff × List Violation))
    (path method loc : String)
    (hrec : ∀ (c : String) (o h : Json) (d : List SchemaDiff) (v : List Violation),
      rec c o h = some (d, v) → ∀ vi ∈ v, violShape path method loc vi) :
    ∀ (ctx f : String) (ov hv : Json) (d : List SchemaDiff) (v : List Violation),
      nestedCompare rec ctx f ov hv = some (d, v) → ∀ vi ∈ v, violShape path method loc vi := by
  intro ctx f ov hv d v h vi hm
  rw [nestedCompare.eq_def] at h
  split at h
  · split at h
    · split at h
      · split at h
        · exact hrec _ _ _ _ _ h vi hm
        · cases h; simp at hm
      · cases h
    · cases h; simp at hm
  · cases h

/-- Violations of the common-field loop, given the shape of the recursive
comparison's violations. -/
theorem commonLoop_viols (cls : Json → Option String)
    (rec : String → Json → Json → Option (List SchemaDiff × List Violation))
    (haProps : List (String × Json)) (oaReq haReq : List Json) (path method loc : String)
    (hrec : ∀ (c : String) (o h : Json) (d : List SchemaDiff) (v : List Violation),
      rec c o h = some (d, v) → ∀ vi ∈ v, violShape path method loc vi) :
    ∀ (ctx : String) (l : List (String × Json)) (d : List SchemaDiff) (v : List Violation),
      commonLoop cls rec haProps oaReq haReq ctx l = some (d, v) →
      ∀ vi ∈ v, violShape path method loc vi := by
  intro ctx l
  induction l with
  | nil =>
    intro d v h vi hm
    rw [commonLoop] at h
    cases h
    simp at hm
  | cons fv rest ih =>
    obtain ⟨f, ov⟩ := fv
    intro d v h vi hm
    rw [commonLoop] at h
    cases hg : getKey haProps f with
    | none =>
      rw [hg] at h
      exact ih d v h vi hm
    | some hv =>
      rw [hg] at h
      obtain ⟨oat, hco, h⟩ := Option.bind_eq_some.mp h
      obtain ⟨hat, hch, h⟩ := Option.bind_eq_some.mp h
      obtain ⟨⟨nd, nv⟩, hn, h⟩ := Option.bind_eq_some.mp h
      obtain ⟨⟨rd, rv⟩, h2, h⟩ := Option.bind_eq_some.mp h
      cases h
      rcases List.mem_append.mp hm with hm1 | hm2
      · exact nestedCompare_viols rec path method loc hrec ctx f ov hv nd nv hn vi hm1
      · exact ih rd rv h2 vi hm2

/-- Violations of `_compare_schemas` at every fuel. -/
theorem compareSchemas_viols :
    ∀ (n : Nat) (ctx path method loc : String) (oa ha : Json)
      (d : List SchemaDiff) (v : List Violation),
      compareSchemas n ctx path method loc oa ha = some (d, v) →
      ∀ vi ∈ v, violShape path method loc vi := by
  intro n
  induction n with
  | zero =>
    intro ctx path method loc oa ha d v h
    rw [compareSchemas] at h
    cases h
  | succ n ih =>
    intro ctx path method loc oa ha d v h vi hm
    rw [compareSchemas, compareStep.eq_def] at h
    split at h
    · obtain ⟨oaProps, hp, h⟩ := Option.bind_eq_some.mp h
      obtain ⟨haProps, hq, h⟩ := Option.bind_eq_some.mp h
      obtain ⟨oaReq, hr, h⟩ := Option.bind_eq_some.mp h
      obtain ⟨haReq, hs, h⟩ := Option.bind_eq_some.mp h
      obtain ⟨⟨d1, v1⟩, h1, h⟩ := Option.bind_eq_some.mp h
      obtain ⟨⟨d2, v2⟩, h2, h⟩ := Option.bind_eq_some.mp h
      obtain ⟨⟨d3, v3⟩, h3, h⟩ := Option.bind_eq_some.mp h
      cases h
      rcases List.mem_append.mp hm with hm12 | hm3
      · rcases List.mem_append.mp hm12 with hm1 | hm2
        · exact missingLoop_viols _ _ _ _ _ _ _ _ d1 v1 h1 vi hm1
        · exact extLoop_viols _ _ _ _ _ _ _ d2 v2 h2 vi hm2
      · exact commonLoop_viols _ _ _ _ _ _ _ _
          (fun c o h2b d2b v2b hr2 => ih c path method loc o h2b d2b v2b hr2)
          _ _ d3 v3 h3 vi hm3
    · cases h

/-- Violations of the missing-parameter loop. -/
theorem paramMissingLoop_viols (haParams : List (Json × Json)) (path mu : String) :
    ∀ (l : List (Json × Json)) (d : List SchemaDiff) (v : List Violation),
      paramMissingLoop haParams path mu l = some (d, v) →
      ∀ vi ∈ v, violShape path mu "param" vi := by
  intro l
  induction l with
  | nil =>
    intro d v h vi hm
    rw [paramMissingLoop] at h
    cases h
    simp at hm
  | cons np rest ih =>
    obtain ⟨name, pv⟩ := np
    intro d v h vi hm
    cases pv with
    | obj pkvs =>
      rw [paramMissingLoop] at h
      by_cases hk : hasKeyJ haParams name = true
      · rw [if_pos hk] at h
        exact ih d v h vi hm
      · rw [if_neg hk] at h
        obtain ⟨oval, hst, h⟩ := Option.bind_eq_some.mp h
        obtain ⟨⟨ds, ws⟩, h2, h⟩ := Option.bind_eq_some.mp h
        cases h
        rcases List.mem_append.mp hm with hm1 | hm2
        · by_cases hdoc : docHasJ path mu "param" name = true
          · rw [if_pos hdoc] at hm1
            simp at hm1
          · rw [if_neg hdoc] at hm1
            simp only [List.mem_singleton] at hm1
            subst hm1
            refine ⟨rfl, rfl, rfl, Or.inl ⟨rfl, ?_⟩⟩
            simpa [missingParamViol] using hdoc
        · exact ih ds ws h2 vi hm2
    | null =>
      rw [paramMissingLoop] at h
      by_cases hk : hasKeyJ haParams name = true
      · rw [if_pos hk] at h
        exact ih d v h vi hm
      · rw [if_neg hk] at h
        cases h
      exact fun tkvs htk => nomatch htk
    | bool b =>
      rw [paramMissingLoop] at h
      by_cases hk : hasKeyJ haParams name = true
      · rw [if_pos hk] at h
        exact ih d v h vi hm
      · rw [if_neg hk] at h
        cases h
      exact fun tkvs htk => nomatch htk
    | num m2 =>
      rw [paramMissingLoop] at h
      by_cases hk : hasKeyJ haParams name = true
      · rw [if_pos hk] at h
        exact ih d v h vi hm
      · rw [if_neg hk] at h
        cases h
      exact fun tkvs htk => nomatch htk
    | str s2 =>
      rw [paramMissingLoop] at h
      by_cases hk : hasKeyJ haParams name = true
      · rw [if_pos hk] at h
        exact ih d v h vi hm
      · rw [if_neg hk] at h
        cases h
      exact fun tkvs htk => nomatch htk
    | arr l2 =>
      rw [paramMissingLoop] at h
      by_cases hk : hasKeyJ haParams name = true
      · rw [if_pos hk] at h
        exact ih d v h vi hm
      · rw [if_neg hk] at h
        cases h
      exact fun tkvs htk => nomatch htk

/-- Violations of the extension-parameter loop. -/
theorem paramExtLoop_viols (oaParams : List (Json × Json)) (path mu : String) :
    ∀ (l : List (Json × Json)) (d : List SchemaDiff) (v : List Violation),
      paramExtLoop oaParams path mu l = some (d, v) →
      ∀ vi ∈ v, violShape path mu "param" vi := by
  intro l
  induction l with
  | nil =>
    intro d v h vi hm
    rw [paramExtLoop] at h
    cases h
    simp at hm
  | cons np rest ih =>
    obtain ⟨name, pv⟩ := np
    intro d v h vi hm
    cases pv with
    | obj pkvs =>
      rw [paramExtLoop] at h
      by_cases hk : hasKeyJ oaParams name = true
      · rw [if_pos hk] at h
        exact ih d v h vi hm
      · rw [if_neg hk] at h
        obtain ⟨hval, hst, h⟩ := Option.bind_eq_some.mp h
        obtain ⟨marked, hmk, h⟩ := Option.bind_eq_some.mp h
        obtain ⟨⟨ds, ws⟩, h2, h⟩ := Option.bind_eq_some.mp h
        cases h
        rcases List.mem_append.mp hm with hm1 | hm2
        · by_cases hmrk : marked = true
          · rw [if_pos hmrk] at hm1
            simp at hm1
          · rw [if_neg hmrk] at hm1
            simp only [List.mem_singleton] at hm1
            subst hm1
            exact ⟨rfl, rfl, rfl, Or.inr rfl⟩
        · exact ih ds ws h2 vi hm2
    | null =>
      rw [paramExtLoop] at h
      by_cases hk : hasKeyJ oaParams name = true
      · rw [if_pos hk] at h
        exact ih d v h vi hm
      · rw [if_neg hk] at h
        cases h
      exact fun tkvs htk => nomatch htk
    | bool b =>
      rw [paramExtLoop] at h
      by_cases hk : hasKeyJ oaParams name = true
      · rw [if_pos hk] at h
        exact ih d v h vi hm
      · rw [if_neg hk] at h
        cases h
      exact fun tkvs htk => nomatch htk
    | num m2 =>
      rw [paramExtLoop] at h
      by_cases hk : hasKeyJ oaParams name = true
      · rw [if_pos hk] at h
        exact ih d v h vi hm
      · rw [if_neg hk] at h
        cases h
      exact fun tkvs htk => nomatch htk
    | str s2 =>
      rw [paramExtLoop] at h
      by_cases hk : hasKeyJ oaParams name = true
      · rw [if_pos hk] at h
        exact ih d v h vi hm
      · rw [if_neg hk] at h
        cases h
      exact fun tkvs htk => nomatch htk
    | arr l2 =>
      rw [paramExtLoop] at h
      by_cases hk : hasKeyJ oaParams name = true
      · rw [if_pos hk] at h
        exact ih d v h vi hm
      · rw [if_neg hk] at h
        cases h
      exact fun tkvs htk => nomatch htk

/-- Violations of one body comparison. -/
theorem bodyCompare_viols (fuel : Nat) (oaSpec haSpec : Json) (ctx path mu loc : String)
    (oaBody haBody : Json) (d : List SchemaDiff) (v : List Violation)
    (h : bodyCompare fuel oaSpec haSpec ctx path mu loc oaBody haBody = some (d, v)) :
    ∀ vi ∈ v, violShape path mu loc vi := by
  rw [bodyCompare] at h
  split at h
  · obtain ⟨roa, h1, h⟩ := Option.bind_eq_some.mp h
    obtain ⟨rha, h2, h⟩ := Option.bind_eq_some.mp h
    exact compareSchemas_viols fuel ctx path mu loc roa rha d v h
  · cases h
    intro vi hm
    simp at hm

-- =========================================================================
-- C10: an absent / falsy application/json body schema skips that comparison
-- =========================================================================

/-- C10.  If either side's request-body `application/json` schema chain yields
a falsy value (in particular the `{}` that `.get(..., {})` produces when any
key on the chain is absent), the request-body comparison is skipped entirely:
the endpoint diff carries no request diffs and no violation with location
`request` is produced, even when the other side defines a schema with
required fields — and likewise for the 200-response body and location
`response`. -/
theorem C10_falsy_body_skips_comparison (fuel : Nat) (oaSpec haSpec : Json)
    (path method : String) (oaOp haOp : Json) (ed : EndpointDiff) (v : List Violation)
    (h : compareEndpoint fuel oaSpec haSpec path method oaOp haOp = some (ed, v)) :
    ((∃ b, dig oaOp requestBodyPath = some b ∧ truthy b = false) ∨
     (∃ b, dig haOp requestBodyPath = some b ∧ truthy b = false) →
      ed.request_diffs = [] ∧ ∀ vi ∈ v, vi.location ≠ "request") ∧
    ((∃ b, dig oaOp responseBodyPath = some b ∧ truthy b = false) ∨
     (∃ b, dig haOp responseBodyPath = some b ∧ truthy b = false) →
      ed.response_diffs = [] ∧ ∀ vi ∈ v, vi.location ≠ "response") := by
  rw [compareEndpoint.eq_def] at h
  split at h
  · obtain ⟨oaBody, hob, h⟩ := Option.bind_eq_some.mp h
    obtain ⟨haBody, hhb, h⟩ := Option.bind_eq_some.mp h
    obtain ⟨⟨reqD, reqV⟩, hreq, h⟩ := Option.bind_eq_some.mp h
    obtain ⟨oaResp, hor, h⟩ := Option.bind_eq_some.mp h
    obtain ⟨haResp, hhr, h⟩ := Option.bind_eq_some.mp h
    obtain ⟨⟨respD, respV⟩, hresp, h⟩ := Option.bind_eq_some.mp h
    obtain ⟨oaPR, hopr, h⟩ := Option.bind_eq_some.mp h
    obtain ⟨haPR, hhpr, h⟩ := Option.bind_eq_some.mp h
    obtain ⟨oaPar, hopa, h⟩ := Option.bind_eq_some.mp h
    obtain ⟨haPar, hhpa, h⟩ := Option.bind_eq_some.mp h
    obtain ⟨⟨pd1, pv1⟩, hpm, h⟩ := Option.bind_eq_some.mp h
    obtain ⟨⟨pd2, pv2⟩, hpe, h⟩ := Option.bind_eq_some.mp h
    cases h
    have hreqShape := bodyCompare_viols _ _ _ _ _ _ _ _ _ reqD reqV hreq
    have hrespShape := bodyCompare_viols _ _ _ _ _ _ _ _ _ respD respV hresp
    have hpmShape := paramMissingLoop_viols _ _ _ _ pd1 pv1 hpm
    have hpeShape := paramExtLoop_viols _ _ _ _ pd2 pv2 hpe
    constructor
    · intro hyp
      have hfalse : (truthy oaBody && truthy haBody) = false := by
        rcases hyp with ⟨b, hb, hbf⟩ | ⟨b, hb, hbf⟩
        · rw [hob] at hb
          cases hb
          rw [hbf, Bool.false_and]
        · rw [hhb] at hb
          cases hb
          rw [hbf, Bool.and_false]
      rw [bodyCompare] at hreq
      rw [if_neg (by rw [hfalse]; exact Bool.false_ne_true)] at hreq
      cases hreq
      refine ⟨rfl, ?_⟩
      intro vi hm
      simp only [List.nil_append] at hm
      rcases List.mem_append.mp hm with hm2 | hm34
      · rcases List.mem_append.mp hm2 with hm2a | hm2b
        · obtain ⟨_, _, hloc, _⟩ := hrespShape vi hm2a
          rw [hloc]
          simp
        · obtain ⟨_, _, hloc, _⟩ := hpmShape vi hm2b
          rw [hloc]
          simp
      · obtain ⟨_, _, hloc, _⟩ := hpeShape vi hm34
        rw [hloc]
        simp
    · intro hyp
      have hfalse : (truthy oaResp && truthy haResp) = false := by
        rcases hyp with ⟨b, hb, hbf⟩ | ⟨b, hb, hbf⟩
        · rw [hor] at hb
          cases hb
          rw [hbf, Bool.false_and]
        · rw [hhr] at hb
          cases hb
          rw [hbf, Bool.and_false]
      rw [bodyCompare] at hresp
      rw [if_neg (by rw [hfalse]; exact Bool.false_ne_true)] at hresp
      cases hresp
      refine ⟨rfl, ?_⟩
      intro vi hm
      simp only [List.append_nil] at hm
      rcases List.mem_append.mp hm with hm13 | hm4
      · rcases List.mem_append.mp hm13 with hm1 | hm3
        · obtain ⟨_, _, hloc, _⟩ := hreqShape vi hm1
          rw [hloc]
          simp
        · obtain ⟨_, _, hloc, _⟩ := hpmShape vi hm3
          rw [hloc]
          simp
      · obtain ⟨_, _, hloc, _⟩ := hpeShape vi hm4
        rw [hloc]
        simp
  · cases h

/-- Reference operation of the C10 witness: a request body whose schema has a
required field `x`. -/
def c10oaOp : Json :=
  Json.obj [("requestBody", Json.obj [("content", Json.obj [("application/json",
    Json.obj [("schema", Json.obj [("type", Json.str "object"),
      ("properties", Json.obj [("x", Json.obj [("type", Json.str "string")])]),
      ("required", Json.arr [Json.str "x"])])])])])]

/-- Implementation operation of the C10 witness: no request body at all (the
chained `.get(..., {})` walk yields the falsy `{}`). -/
def c10haOp : Json := Json.obj []

/-- The endpoint diff the model computes for the C10 witness. -/
def c10ed : EndpointDiff :=
  { path := "/p", method := "POST", request_diffs := [], response_diffs := [],
    param_diffs := [], missing_in_hadrian := false, hadrian_extension := false }

/-- C10 witness: even though the reference side has a required request field,
the missing implementation body skips the comparison — no diffs, no
violations. -/
theorem C10_witness :
    compareEndpoint 8 (Json.obj []) (Json.obj []) "/p" "post" c10oaOp c10haOp =
      some (c10ed, []) ∧
    dig c10haOp requestBodyPath = some (Json.obj []) ∧
    truthy (Json.obj []) = false ∧
    c10ed.request_diffs = [] ∧
    (∀ vi ∈ ([] : List Violation), vi.location ≠ "request") := by
  have h := C10_falsy_body_skips_comparison 8 (Json.obj []) (Json.obj []) "/p" "post"
    c10oaOp c10haOp c10ed [] rfl
  have h1 := h.1 (Or.inr ⟨Json.obj [], rfl, rfl⟩)
  exact ⟨rfl, rfl, rfl, h1.1, h1.2⟩

-- =========================================================================
-- C8: implementation-only (extension) endpoint reporting
-- =========================================================================

/-- Reference document of the C8 counterexample: no paths at all. -/
def c8oa : Json := Json.obj []

/-- Implementation document of the C8 counterexample: one path `/healthz`
that exists only in the implementation. -/
def c8ha : Json :=
  Json.obj [("paths", Json.obj [("/healthz", Json.obj [("get", Json.obj [])])])]

/-- C8 counterexample.  `/healthz` is present only in the implementation
document, is not a target of `PATH_MAPPING`, is not under `/admin/`, and is
not reachable via the `/api/v1` prefix convention — so per the claim it must
appear among the implementation-extension endpoints.  The code only ever
reports paths that start with `/api/v1/`, so the report's list is empty. -/
theorem C8_counterexample :
    hasKey [("/healthz", Json.obj [("get", Json.obj [])])] "/healthz" = true ∧
    strStarts "/healthz" "/admin/" = false ∧
    PATH_MAPPING.any (fun kv => kv.2 == "/healthz") = false ∧
    strStarts "/healthz" "/api/v1/" = false ∧
    (checkConformance 5 none c8oa c8ha).map ConformanceReport.hadrian_only_endpoints =
      some [] :=
  ⟨rfl, rfl, rfl, rfl, rfl⟩

/-- The condition under which the Hadrian-only loop records a path. -/
def hadrianOnlyCond (oaPathsKvs : List (String × Json)) (p : String) : Bool :=
  !strStarts p "/admin/" && !(PATH_MAPPING.any (fun kv => kv.2 == p)) &&
  strStarts p "/api/v1/" && !(hasKey oaPathsKvs (pyReplace p "/api/v1/" "/"))

/-- One Hadrian-only step can only extend the extension list. -/
theorem hadrianOnlyStep_mono (oaP : List (String × Json)) (r : ConformanceReport)
    (e : String × Json) (x : String) (hx : x ∈ r.hadrian_only_endpoints) :
    x ∈ (hadrianOnlyStep oaP r e).hadrian_only_endpoints := by
  rw [hadrianOnlyStep]
  split
  · exact hx
  · split
    · exact hx
    · split
      · split
        · exact hx
        · exact List.mem_append.mpr (Or.inl hx)
      · exact hx

/-- The Hadrian-only fold can only extend the extension list. -/
theorem hadrianOnlyFold_mono (oaP : List (String × Json)) :
    ∀ (l : List (String × Json)) (r : ConformanceReport) (x : String),
      x ∈ r.hadrian_only_endpoints →
      x ∈ (l.foldl (hadrianOnlyStep oaP) r).hadrian_only_endpoints := by
  intro l
  induction l with
  | nil => intro r x hx; exact hx
  | cons e rest ih =>
    intro r x hx
    exact ih (hadrianOnlyStep oaP r e) x (hadrianOnlyStep_mono oaP r e x hx)

/-- A step on a path satisfying the condition records it. -/
theorem hadrianOnlyStep_adds (oaP : List (String × Json)) (r : ConformanceReport)
    (e : String × Json) (hc : hadrianOnlyCond oaP e.1 = true) :
    e.1 ∈ (hadrianOnlyStep oaP r e).hadrian_only_endpoints := by
  rw [hadrianOnlyCond] at hc
  simp only [Bool.and_eq_true, Bool.not_eq_true'] at hc
  obtain ⟨⟨⟨h1, h2⟩, h3⟩, h4⟩ := hc
  rw [hadrianOnlyStep]
  rw [if_neg (by rw [h1]; exact Bool.false_ne_true)]
  rw [if_neg (by rw [h2]; exact Bool.false_ne_true)]
  rw [if_pos h3]
  rw [if_neg (by rw [h4]; exact Bool.false_ne_true)]
  exact List.mem_append.mpr (Or.inr (List.mem_singleton.mpr rfl))

/-- Every entry of the fold's input that satisfies the condition ends up in
the extension list. -/
theorem hadrianOnlyFold_mem (oaP : List (String × Json)) :
    ∀ (l : List (String × Json)) (r : ConformanceReport) (e : String × Json),
      e ∈ l → hadrianOnlyCond oaP e.1 = true →
      e.1 ∈ (l.foldl (hadrianOnlyStep oaP) r).hadrian_only_endpoints := by
  intro l
  induction l with
  | nil => intro r e he; cases he
  | cons x rest ih =>
    intro r e he hc
    rcases List.mem_cons.mp he with he1 | he2
    · subst he1
      exact hadrianOnlyFold_mono oaP rest (hadrianOnlyStep oaP r e) e.1
        (hadrianOnlyStep_adds oaP r e hc)
    · exact ih (hadrianOnlyStep oaP r x) e he2 hc

/-- C8 amended.  Only implementation paths under `/api/v1/` are candidates for
the extension report: every implementation path that is not under `/admin/`,
is not a `PATH_MAPPING` target, starts with `/api/v1/` and whose stripped form
(`replace("/api/v1/", "/")`, all occurrences) is absent from the reference
paths appears in `hadrian_only_endpoints`; a path outside the `/api/v1/`
namespace (such as `/healthz` in the counterexample) is silently ignored. -/
theorem C8_api_v1_extensions_reported (fuel : Nat) (filt : Option String)
    (oaKvs haKvs oaPathsKvs haPathsKvs : List (String × Json)) (r : ConformanceReport)
    (e : String × Json)
    (hoa : getKeyD oaKvs "paths" (Json.obj []) = Json.obj oaPathsKvs)
    (hha : getKeyD haKvs "paths" (Json.obj []) = Json.obj haPathsKvs)
    (h : checkConformance fuel filt (Json.obj oaKvs) (Json.obj haKvs) = some r)
    (hmem : e ∈ haPathsKvs)
    (hcond : hadrianOnlyCond oaPathsKvs e.1 = true) :
    e.1 ∈ r.hadrian_only_endpoints := by
  simp only [checkConformance.eq_def] at h
  rw [hoa, hha] at h
  replace h :
      (match getKeyD oaKvs "info" (Json.obj []), getKeyD haKvs "info" (Json.obj []) with
       | Json.obj oaInfo, Json.obj haInfo =>
         match optFold (pathStep fuel (Json.obj oaKvs) (Json.obj haKvs) haPathsKvs filt)
             (initReport oaInfo haInfo oaPathsKvs haPathsKvs) oaPathsKvs with
         | none => none
         | some r1 => some (List.foldl (hadrianOnlyStep oaPathsKvs) r1 haPathsKvs)
       | _, _ => none) = some r := h
  split at h
  · split at h
    · cases h
    · rename_i r1 hfold
      cases h
      exact hadrianOnlyFold_mem oaPathsKvs haPathsKvs r1 e hmem hcond
  · cases h

/-- Reference document of the C8 witness. -/
def c8woa : Json := Json.obj [("paths", Json.obj [("/zzz", Json.obj [])])]

/-- Implementation document of the C8 witness: one `/api/v1/` path with no
reference counterpart. -/
def c8wha : Json :=
  Json.obj [("paths", Json.obj [("/api/v1/custom", Json.obj [("get", Json.obj [])])])]

/-- The report the model computes for the C8 witness documents. -/
def c8wrep : ConformanceReport :=
  { openai_version := Json.str "unknown", hadrian_version := Json.str "unknown",
    total_openai_endpoints := 1, total_hadrian_endpoints := 1,
    endpoints_checked := 0, fully_conformant := 0,
    endpoints_with_diffs := [], out_of_scope_endpoints := [],
    hadrian_only_endpoints := ["/api/v1/custom"], violations := [] }

/-- C8 witness: an `/api/v1/` implementation-only path is reported. -/
theorem C8_witness :
    checkConformance 5 none c8woa c8wha = some c8wrep ∧
    hadrianOnlyCond [("/zzz", Json.obj [])] "/api/v1/custom" = true ∧
    "/api/v1/custom" ∈ c8wrep.hadrian_only_endpoints :=
  ⟨rfl, rfl,
    C8_api_v1_extensions_reported 5 none
      [("paths", Json.obj [("/zzz", Json.obj [])])]
      [("paths", Json.obj [("/api/v1/custom", Json.obj [("get", Json.obj [])])])]
      [("/zzz", Json.obj [])]
      [("/api/v1/custom", Json.obj [("get", Json.obj [])])]
      c8wrep ("/api/v1/custom", Json.obj [("get", Json.obj [])])
      rfl rfl rfl (List.mem_singleton.mpr rfl) rfl⟩


-- =========================================================================
-- C5: missing fields — diff always recorded, violation iff undocumented
-- =========================================================================

/-- Every reference field absent from the implementation properties yields its
`missing_in_hadrian` diff in the first loop's output, and — whenever its key is
undocumented — its `undocumented_missing` violation. -/
theorem missingLoop_mem (cls : Json → Option String) (haProps : List (String × Json))
    (oaReq : List Json) (ctx path method loc : String) (f : String) (fv : Json) :
    ∀ (l : List (String × Json)) (d : List SchemaDiff) (v : List Violation),
      missingLoop cls haProps oaReq ctx path method loc l = some (d, v) →
      (f, fv) ∈ l → hasKey haProps f = false →
      (∃ sd ∈ d, sd.field = Json.str f ∧ sd.diff_type = DiffType.missing_in_hadrian) ∧
      (docHas path method loc f = false →
        ∃ vi ∈ v, vi.violation_type = "undocumented_missing" ∧ vi.field = Json.str f) := by
  intro l
  induction l with
  | nil =>
    intro d v h hmem
    cases hmem
  | cons gv rest ih =>
    obtain ⟨g, gv2⟩ := gv
    intro d v h hmem hnk
    rw [missingLoop] at h
    rcases List.mem_cons.mp hmem with hmem1 | hmem2
    · injection hmem1 with hg1 hg2
      subst hg1
      subst hg2
      rw [if_neg (by rw [hnk]; exact Bool.false_ne_true)] at h
      obtain ⟨ft, hc, h⟩ := Option.bind_eq_some.mp h
      obtain ⟨⟨ds, ws⟩, h2, h⟩ := Option.bind_eq_some.mp h
      cases h
      constructor
      · exact ⟨missingFieldDiff ctx f ft (inReq oaReq f), List.mem_cons_self _ _, rfl, rfl⟩
      · intro hdoc
        refine ⟨missingFieldViol path method loc f, ?_, rfl, rfl⟩
        rw [if_neg (by rw [hdoc]; exact Bool.false_ne_true)]
        exact List.mem_append.mpr (Or.inl (List.mem_singleton.mpr rfl))
    · by_cases hk : hasKey haProps g = true
      · rw [if_pos hk] at h
        exact ih d v h hmem2 hnk
      · rw [if_neg hk] at h
        obtain ⟨ft, hc, h⟩ := Option.bind_eq_some.mp h
        obtain ⟨⟨ds, ws⟩, h2, h⟩ := Option.bind_eq_some.mp h
        cases h
        obtain ⟨hdiff, hviol⟩ := ih ds ws h2 hmem2 hnk
        constructor
        · obtain ⟨sd, hsd, hsdf⟩ := hdiff
          exact ⟨sd, List.mem_cons_of_mem _ hsd, hsdf⟩
        · intro hdoc
          obtain ⟨vi, hvi, hvif⟩ := hviol hdoc
          exact ⟨vi, List.mem_append.mpr (Or.inr hvi), hvif⟩

/-- C5.  For every reference field missing from the implementation schema in
`_compare_schemas`: its `missing_in_hadrian` diff is always in the returned
diff list (and hence reaches the endpoint's diff list), and an
`undocumented_missing` violation for it is produced if and only if the tuple
(reference path, method, location, field name) is absent from
`DOCUMENTED_MISSING_FIELDS`. -/
theorem C5_missing_field_documented_iff_no_violation (n : Nat)
    (ctx path method loc : String) (okvs hkvs : List (String × Json))
    (oaProps haProps : List (String × Json))
    (f : String) (fv : Json) (d : List SchemaDiff) (v : List Violation)
    (h : compareSchemas (n + 1) ctx path method loc (Json.obj okvs) (Json.obj hkvs) =
      some (d, v))
    (hp : propsOf okvs = some oaProps)
    (hq : propsOf hkvs = some haProps)
    (hf : (f, fv) ∈ oaProps)
    (hg : hasKey haProps f = false) :
    (∃ sd ∈ d, sd.field = Json.str f ∧ sd.diff_type = DiffType.missing_in_hadrian) ∧
    ((∃ vi ∈ v, vi.violation_type = "undocumented_missing" ∧ vi.field = Json.str f) ↔
      docHas path method loc f = false) := by
  have hshape := compareSchemas_viols (n + 1) ctx path method loc
    (Json.obj okvs) (Json.obj hkvs) d v h
  rw [compareSchemas] at h
  replace h :
      (propsOf okvs >>= fun oaProps2 =>
       propsOf hkvs >>= fun haProps2 =>
       reqSetOf okvs >>= fun oaReq =>
       reqSetOf hkvs >>= fun haReq =>
       missingLoop (fun j => getTypeString (n + 1) j) haProps2 oaReq ctx path method loc
         oaProps2 >>= fun p1 =>
       extLoop (fun j => getTypeString (n + 1) j) oaProps2 ctx path method loc
         haProps2 >>= fun p2 =>
       commonLoop (fun j => getTypeString (n + 1) j)
         (fun c o hb => compareSchemas n c path method loc o hb) haProps2 oaReq haReq ctx
         oaProps2 >>= fun p3 =>
       some (p1.1 ++ p2.1 ++ p3.1, p1.2 ++ p2.2 ++ p3.2)) = some (d, v) := h
  rw [hp, hq] at h
  obtain ⟨oaProps2, hp2, h⟩ := Option.bind_eq_some.mp h
  cases Option.some.inj hp2
  obtain ⟨haProps2, hq2, h⟩ := Option.bind_eq_some.mp h
  cases Option.some.inj hq2
  obtain ⟨oaReq, hr, h⟩ := Option.bind_eq_some.mp h
  obtain ⟨haReq, hs, h⟩ := Option.bind_eq_some.mp h
  obtain ⟨⟨d1, v1⟩, h1, h⟩ := Option.bind_eq_some.mp h
  obtain ⟨⟨d2, v2⟩, h2, h⟩ := Option.bind_eq_some.mp h
  obtain ⟨⟨d3, v3⟩, h3, h⟩ := Option.bind_eq_some.mp h
  cases Option.some.inj h
  obtain ⟨hdiff, hviol⟩ := missingLoop_mem _ haProps oaReq ctx path method loc f fv
    oaProps d1 v1 h1 hf hg
  constructor
  · obtain ⟨sd, hsd, hsdf⟩ := hdiff
    exact ⟨sd, List.mem_append.mpr (Or.inl (List.mem_append.mpr (Or.inl hsd))), hsdf⟩
  · constructor
    · rintro ⟨vi, hvi, htype, hfield⟩
      obtain ⟨-, -, -, hor⟩ := hshape vi hvi
      rcases hor with ⟨-, hdh⟩ | hext
      · rw [hfield] at hdh
        exact hdh
      · rw [htype] at hext
        exact absurd hext (by decide)
    · intro hdoc
      obtain ⟨vi, hvi, hvif⟩ := hviol hdoc
      exact ⟨vi, List.mem_append.mpr (Or.inl (List.mem_append.mpr (Or.inl hvi))), hvif⟩

/-- Reference-side schema object for the C5 witness: one documented field. -/
def c5okvs : List (String × Json) :=
  [("properties", Json.obj [("safety_identifier", Json.obj [("type", Json.str "string")])])]

/-- Implementation-side schema object for the C5 witness: no properties. -/
def c5hkvs : List (String × Json) := [("properties", Json.obj [])]

/-- Witness for C5 at the documented key `("/chat/completions", "POST",
"request", "safety_identifier")`: the diff is recorded, no violation is. -/
theorem C5_witness :
    compareSchemas 3 "/chat/completions request" "/chat/completions" "POST" "request"
        (Json.obj c5okvs) (Json.obj c5hkvs) =
      some ([missingFieldDiff "/chat/completions request" "safety_identifier" "string" false],
        []) ∧
    docHas "/chat/completions" "POST" "request" "safety_identifier" = true ∧
    (∃ sd ∈ [missingFieldDiff "/chat/completions request" "safety_identifier" "string" false],
      sd.field = Json.str "safety_identifier" ∧
      sd.diff_type = DiffType.missing_in_hadrian) ∧
    ¬ ∃ vi ∈ ([] : List Violation),
      vi.violation_type = "undocumented_missing" ∧
        vi.field = Json.str "safety_identifier" := by
  have h := C5_missing_field_documented_iff_no_violation 2 "/chat/completions request"
    "/chat/completions" "POST" "request" c5okvs c5hkvs
    [("safety_identifier", Json.obj [("type", Json.str "string")])] []
    "safety_identifier" (Json.obj [("type", Json.str "string")])
    [missingFieldDiff "/chat/completions request" "safety_identifier" "string" false] []
    rfl rfl rfl (List.mem_singleton.mpr rfl) rfl
  refine ⟨rfl, rfl, h.1, fun hex => ?_⟩
  exact Bool.noConfusion
    ((rfl :
        docHas "/chat/completions" "POST" "request" "safety_identifier" = true).symm.trans
      (h.2.mp hex))

-- =========================================================================
-- C1: zero violations iff presence + documentation + marking
-- =========================================================================

/-- No violation of the given type occurs in a list. -/
def noViol (t : String) (v : List Violation) : Bool :=
  v.all (fun vi => !(vi.violation_type == t))

/-- Every violation the checker can produce is a missing endpoint, an
undocumented missing field/parameter, or an unmarked extension. -/
def violTyped (vi : Violation) : Prop :=
  vi.violation_type = "missing_endpoint" ∨ vi.violation_type = "undocumented_missing" ∨
  vi.violation_type = "unmarked_extension"

/-- Specification wording: a field or query-parameter dict "carries the
extension-marker text in its description".  A value on which the source's
membership test would crash carries no marker. -/
def descMarked : Json → Bool
  | Json.obj kvs => (markerIn (getKeyD kvs "description" (Json.str ""))).getD false
  | _ => false

/-- Specification condition on one nested field pair: the conditions recurse
exactly into the fields both sides declare as `type: object`. -/
def nestedCond (recOk : Json → Json → Option (Bool × Bool)) (ov hv : Json) :
    Option (Bool × Bool) :=
  match ov with
  | Json.obj okv =>
    if jsonIsStr (getKey okv "type") "object" then
      match hv with
      | Json.obj hkv =>
        if jsonIsStr (getKey hkv "type") "object" then recOk ov hv
        else some (true, true)
      | _ => some (true, true)
    else some (true, true)
  | _ => some (true, true)

/-- Fold of the nested-field conditions over the common fields. -/
def commonCond (recOk : Json → Json → Option (Bool × Bool))
    (haProps : List (String × Json)) :
    List (String × Json) → Option (Bool × Bool)
  | [] => some (true, true)
  | (f, ov) :: rest =>
    match getKey haProps f with
    | none => commonCond recOk haProps rest
    | some hv => do
      let (nm, ne) ← nestedCond recOk ov hv
      let (rm, re) ← commonCond recOk haProps rest
      some (nm && rm, ne && re)

/-- Specification conditions (b) and (c) on one schema pair, stated in the
specification's own words and recursing into nested object fields: the first
component says every missing field — present in the reference properties but
not the implementation properties — is listed in the documented-exceptions
table under the endpoint's (path, METHOD, location); the second says every
extension field — present only in the implementation properties — carries the
extension-marker text in its description. -/
def schemaCond : Nat → String → String → String → Json → Json → Option (Bool × Bool)
  | 0, _, _, _, _, _ => none
  | n + 1, path, method, loc, Json.obj okvs, Json.obj hkvs => do
    let oaProps ← propsOf okvs
    let haProps ← propsOf hkvs
    let p ← commonCond (fun o h => schemaCond n path method loc o h) haProps oaProps
    some ((oaProps.all fun fv => hasKey haProps fv.1 || docHas path method loc fv.1) && p.1,
          (haProps.all fun fh => hasKey oaProps fh.1 || descMarked fh.2) && p.2)
  | _ + 1, _, _, _, _, _ => none

/-- Conditions (b) and (c) for one body location: when both sides have a truthy
`application/json` schema, the schema conditions on the two resolved schemas;
an untested body satisfies the conditions vacuously. -/
def bodyCond (fuel : Nat) (oaSpec haSpec : Json) (path mu loc : String)
    (oaBody haBody : Json) : Option (Bool × Bool) :=
  if truthy oaBody && truthy haBody then do
    let roa ← resolveSchema fuel oaSpec oaBody
    let rha ← resolveSchema fuel haSpec haBody
    schemaCond fuel path mu loc roa rha
  else some (true, true)

/-- Conditions (b) and (c) for one endpoint: request body, 200-response body
and query parameters — every missing query parameter is documented under
location `param`, and every extension query parameter carries the marker in
its description. -/
def endpointCond (fuel : Nat) (oaSpec haSpec : Json) (path method : String)
    (oaOp haOp : Json) : Option (Bool × Bool) :=
  match oaOp, haOp with
  | Json.obj okvs, Json.obj hkvs => do
    let oaBody ← dig (Json.obj okvs) requestBodyPath
    let haBody ← dig (Json.obj hkvs) requestBodyPath
    let q ← bodyCond fuel oaSpec haSpec path (strUpper method) "request" oaBody haBody
    let oaResp ← dig (Json.obj okvs) responseBodyPath
    let haResp ← dig (Json.obj hkvs) responseBodyPath
    let s ← bodyCond fuel oaSpec haSpec path (strUpper method) "response" oaResp haResp
    let oaParamsRaw ← pyIter (getKeyD okvs "parameters" (Json.arr []))
    let haParamsRaw ← pyIter (getKeyD hkvs "parameters" (Json.arr []))
    let oaParams ← buildParams oaParamsRaw
    let haParams ← buildParams haParamsRaw
    some (q.1 && s.1 && oaParams.all
            (fun np => hasKeyJ haParams np.1 || docHasJ path (strUpper method) "param" np.1),
          q.2 && s.2 && haParams.all
            (fun np => hasKeyJ oaParams np.1 || descMarked np.2))
  | _, _ => none

/-- The three specification conditions for one (reference path, method): (a)
an in-scope reference method is present in the implementation operation dict;
(b) every missing field/parameter of the compared endpoint is documented; (c)
every extension field/parameter carries the marker.  A method the reference
does not declare, or one that is out of scope, satisfies all three vacuously. -/
def methodCond (fuel : Nat) (oaSpec haSpec : Json) (oaPath : String)
    (oaMethodsKvs haMethodsKvs : List (String × Json)) (m : String) :
    Option (Bool × Bool × Bool) :=
  match getKey oaMethodsKvs m with
  | none => some (true, true, true)
  | some oaOp =>
    if isMethodOutOfScope oaPath m then some (true, true, true)
    else
      match getKey haMethodsKvs m with
      | none => some (false, true, true)
      | some haOp => do
        let p ← endpointCond fuel oaSpec haSpec oaPath m oaOp haOp
        some (true, p.1, p.2)

/-- Conjunction fold of per-item condition triples. -/
def condFold {α : Type} (cond : α → Option (Bool × Bool × Bool)) :
    List α → Option (Bool × Bool × Bool)
  | [] => some (true, true, true)
  | x :: rest => do
    let t ← cond x
    let t2 ← condFold cond rest
    some (t.1 && t2.1, t.2.1 && t2.2.1, t.2.2 && t2.2.2)

/-- The three specification conditions for one reference path: out-of-scope
and filtered-out paths satisfy them vacuously; otherwise the methods of the
implementation path (static mapping first, namespace prefix as fallback) are
examined method by method. -/
def pathCond (fuel : Nat) (oaSpec haSpec : Json) (haPathsKvs : List (String × Json))
    (filt : Option String) (entry : String × Json) : Option (Bool × Bool × Bool) :=
  if isOutOfScope entry.1 then some (true, true, true)
  else if filterSkips filt entry.1 then some (true, true, true)
  else
    match entry.2 with
    | Json.obj oaMethodsKvs =>
      match getKeyD haPathsKvs (hadrianPathFor entry.1) (Json.obj []) with
      | Json.obj haMethodsKvs =>
        condFold (methodCond fuel oaSpec haSpec entry.1 oaMethodsKvs haMethodsKvs)
          httpMethods
      | _ => none
    | _ => none

/-- The specification's three conditions over the whole check: (a) every
in-scope reference endpoint/method is present in the implementation document,
(b) every missing field or parameter is listed in the documented-exceptions
table, and (c) every extension field or parameter carries the extension-marker
text in its description. -/
def checkCond (fuel : Nat) (filt : Option String) (oaSpec haSpec : Json) :
    Option (Bool × Bool × Bool) :=
  match oaSpec, haSpec with
  | Json.obj oaKvs, Json.obj haKvs =>
    match getKeyD oaKvs "paths" (Json.obj []), getKeyD haKvs "paths" (Json.obj []) with
    | Json.obj oaPathsKvs, Json.obj haPathsKvs =>
      condFold (pathCond fuel (Json.obj oaKvs) (Json.obj haKvs) haPathsKvs filt) oaPathsKvs
    | _, _ => none
  | _, _ => none

/-- `noViol` distributes over append. -/
theorem noViol_append (t : String) (v1 v2 : List Violation) :
    noViol t (v1 ++ v2) = (noViol t v1 && noViol t v2) := by
  simp [noViol, List.all_append]

/-- Violation/condition correspondence for the missing-field loop. -/
theorem missingLoop_cond (cls : Json → Option String) (haProps : List (String × Json))
    (oaReq : List Json) (ctx path method loc : String) :
    ∀ (l : List (String × Json)) (d : List SchemaDiff) (v : List Violation),
      missingLoop cls haProps oaReq ctx path method loc l = some (d, v) →
      noViol "undocumented_missing" v =
        l.all (fun fv => hasKey haProps fv.1 || docHas path method loc fv.1) ∧
      noViol "unmarked_extension" v = true ∧ noViol "missing_endpoint" v = true := by
  intro l
  induction l with
  | nil =>
    intro d v h
    rw [missingLoop] at h
    cases h
    exact ⟨rfl, rfl, rfl⟩
  | cons fv rest ih =>
    obtain ⟨f, ov⟩ := fv
    intro d v h
    rw [missingLoop] at h
    by_cases hk : hasKey haProps f = true
    · rw [if_pos hk] at h
      obtain ⟨i1, i2, i3⟩ := ih d v h
      refine ⟨?_, i2, i3⟩
      rw [i1, List.all_cons]
      simp [hk]
    · rw [if_neg hk] at h
      obtain ⟨ft, hc, h⟩ := Option.bind_eq_some.mp h
      obtain ⟨⟨ds, ws⟩, h2, h⟩ := Option.bind_eq_some.mp h
      cases Option.some.inj h
      obtain ⟨i1, i2, i3⟩ := ih ds ws h2
      replace hk : hasKey haProps f = false := Bool.eq_false_iff.mpr hk
      by_cases hdoc : docHas path method loc f = true
      · rw [if_pos hdoc]
        refine ⟨?_, ?_, ?_⟩
        · rw [List.nil_append, i1, List.all_cons]
          simp [hk, hdoc]
        · rw [List.nil_append]
          exact i2
        · rw [List.nil_append]
          exact i3
      · replace hdoc : docHas path method loc f = false := Bool.eq_false_iff.mpr hdoc
        rw [if_neg (by rw [hdoc]; exact Bool.false_ne_true)]
        refine ⟨?_, ?_, ?_⟩
        · rw [noViol_append, List.all_cons]
          simp [hk, hdoc, noViol, missingFieldViol]
        · rw [noViol_append, i2]
          rfl
        · rw [noViol_append, i3]
          rfl

/-- Violation/condition correspondence for the extension-field loop. -/
theorem extLoop_cond (cls : Json → Option String) (oaProps : List (String × Json))
    (ctx path method loc : String) :
    ∀ (l : List (String × Json)) (d : List SchemaDiff) (v : List Violation),
      extLoop cls oaProps ctx path method loc l = some (d, v) →
      noViol "unmarked_extension" v =
        l.all (fun fh => hasKey oaProps fh.1 || descMarked fh.2) ∧
      noViol "undocumented_missing" v = true ∧ noViol "missing_endpoint" v = true := by
  intro l
  induction l with
  | nil =>
    intro d v h
    rw [extLoop] at h
    cases h
    exact ⟨rfl, rfl, rfl⟩
  | cons fh rest ih =>
    obtain ⟨f, hv⟩ := fh
    intro d v h
    rw [extLoop] at h
    by_cases hk : hasKey oaProps f = true
    · rw [if_pos hk] at h
      obtain ⟨i1, i2, i3⟩ := ih d v h
      refine ⟨?_, i2, i3⟩
      rw [i1, List.all_cons]
      simp [hk]
    · rw [if_neg hk] at h
      obtain ⟨ft, hc, h⟩ := Option.bind_eq_some.mp h
      cases hv with
      | obj hkvs =>
        obtain ⟨marked, hmk, h⟩ := Option.bind_eq_some.mp h
        obtain ⟨⟨ds, ws⟩, h2, h⟩ := Option.bind_eq_some.mp h
        cases Option.some.inj h
        obtain ⟨i1, i2, i3⟩ := ih ds ws h2
        have hdm : descMarked (Json.obj hkvs) = marked := by
          rw [descMarked, hmk]
          rfl
        replace hk : hasKey oaProps f = false := Bool.eq_false_iff.mpr hk
        by_cases hm : marked = true
        · rw [if_pos hm]
          refine ⟨?_, ?_, ?_⟩
          · rw [List.nil_append, i1, List.all_cons]
            simp [hk, hdm, hm]
          · rw [List.nil_append]
            exact i2
          · rw [List.nil_append]
            exact i3
        · replace hm : marked = false := Bool.eq_false_iff.mpr hm
          rw [if_neg (by rw [hm]; exact Bool.false_ne_true)]
          refine ⟨?_, ?_, ?_⟩
          · rw [noViol_append, List.all_cons]
            simp [hk, hdm, hm, noViol, extFieldViol]
          · rw [noViol_append, i2]
            rfl
          · rw [noViol_append, i3]
            rfl
      | null => exact Option.noConfusion h
      | bool b => exact Option.noConfusion h
      | num m2 => exact Option.noConfusion h
      | str s => exact Option.noConfusion h
      | arr a => exact Option.noConfusion h

/-- Violation/condition correspondence for the missing-parameter loop. -/
theorem paramMissingLoop_cond (haParams : List (Json × Json)) (path mu : String) :
    ∀ (l : List (Json × Json)) (d : List SchemaDiff) (v : List Violation),
      paramMissingLoop haParams path mu l = some (d, v) →
      noViol "undocumented_missing" v =
        l.all (fun np => hasKeyJ haParams np.1 || docHasJ path mu "param" np.1) ∧
      noViol "unmarked_extension" v = true ∧ noViol "missing_endpoint" v = true := by
  intro l
  induction l with
  | nil =>
    intro d v h
    rw [paramMissingLoop] at h
    cases h
    exact ⟨rfl, rfl, rfl⟩
  | cons np rest ih =>
    obtain ⟨name, pv⟩ := np
    intro d v h
    cases pv with
    | obj pkvs =>
      rw [paramMissingLoop] at h
      by_cases hk : hasKeyJ haParams name = true
      · rw [if_pos hk] at h
        obtain ⟨i1, i2, i3⟩ := ih d v h
        refine ⟨?_, i2, i3⟩
        rw [i1, List.all_cons]
        simp [hk]
      · rw [if_neg hk] at h
        obtain ⟨oval, hst, h⟩ := Option.bind_eq_some.mp h
        obtain ⟨⟨ds, ws⟩, h2, h⟩ := Option.bind_eq_some.mp h
        cases Option.some.inj h
        obtain ⟨i1, i2, i3⟩ := ih ds ws h2
        replace hk : hasKeyJ haParams name = false := Bool.eq_false_iff.mpr hk
        by_cases hdoc : docHasJ path mu "param" name = true
        · rw [if_pos hdoc]
          refine ⟨?_, ?_, ?_⟩
          · rw [List.nil_append, i1, List.all_cons]
            simp [hk, hdoc]
          · rw [List.nil_append]
            exact i2
          · rw [List.nil_append]
            exact i3
        · replace hdoc : docHasJ path mu "param" name = false := Bool.eq_false_iff.mpr hdoc
          rw [if_neg (by rw [hdoc]; exact Bool.false_ne_true)]
          refine ⟨?_, ?_, ?_⟩
          · rw [noViol_append, List.all_cons]
            simp [hk, hdoc, noViol, missingParamViol]
          · rw [noViol_append, i2]
            rfl
          · rw [noViol_append, i3]
            rfl
    | null =>
      rw [paramMissingLoop] at h
      by_cases hk : hasKeyJ haParams name = true
      · rw [if_pos hk] at h
        obtain ⟨i1, i2, i3⟩ := ih d v h
        refine ⟨?_, i2, i3⟩
        rw [i1, List.all_cons]
        simp [hk]
      · rw [if_neg hk] at h
        cases h
      exact fun tkvs htk => nomatch htk
    | bool b =>
      rw [paramMissingLoop] at h
      by_cases hk : hasKeyJ haParams name = true
      · rw [if_pos hk] at h
        obtain ⟨i1, i2, i3⟩ := ih d v h
        refine ⟨?_, i2, i3⟩
        rw [i1, List.all_cons]
        simp [hk]
      · rw [if_neg hk] at h
        cases h
      exact fun tkvs htk => nomatch htk
    | num m2 =>
      rw [paramMissingLoop] at h
      by_cases hk : hasKeyJ haParams name = true
      · rw [if_pos hk] at h
        obtain ⟨i1, i2, i3⟩ := ih d v h
        refine ⟨?_, i2, i3⟩
        rw [i1, List.all_cons]
        simp [hk]
      · rw [if_neg hk] at h
        cases h
      exact fun tkvs htk => nomatch htk
    | str s =>
      rw [paramMissingLoop] at h
      by_cases hk : hasKeyJ haParams name = true
      · rw [if_pos hk] at h
        obtain ⟨i1, i2, i3⟩ := ih d v h
        refine ⟨?_, i2, i3⟩
        rw [i1, List.all_cons]
        simp [hk]
      · rw [if_neg hk] at h
        cases h
      exact fun tkvs htk => nomatch htk
    | arr a =>
      rw [paramMissingLoop] at h
      by_cases hk : hasKeyJ haParams name = true
      · rw [if_pos hk] at h
        obtain ⟨i1, i2, i3⟩ := ih d v h
        refine ⟨?_, i2, i3⟩
        rw [i1, List.all_cons]
        simp [hk]
      · rw [if_neg hk] at h
        cases h
      exact fun tkvs htk => nomatch htk

/-- Violation/condition correspondence for the extension-parameter loop. -/
theorem paramExtLoop_cond (oaParams : List (Json × Json)) (path mu : String) :
    ∀ (l : List (Json × Json)) (d : List SchemaDiff) (v : List Violation),
      paramExtLoop oaParams path mu l = some (d, v) →
      noViol "unmarked_extension" v =
        l.all (fun np => hasKeyJ oaParams np.1 || descMarked np.2) ∧
      noViol "undocumented_missing" v = true ∧ noViol "missing_endpoint" v = true := by
  intro l
  induction l with
  | nil =>
    intro d v h
    rw [paramExtLoop] at h
    cases h
    exact ⟨rfl, rfl, rfl⟩
  | cons np rest ih =>
    obtain ⟨name, pv⟩ := np
    intro d v h
    cases pv with
    | obj pkvs =>
      rw [paramExtLoop] at h
      by_cases hk : hasKeyJ oaParams name = true
      · rw [if_pos hk] at h
        obtain ⟨i1, i2, i3⟩ := ih d v h
        refine ⟨?_, i2, i3⟩
        rw [i1, List.all_cons]
        simp [hk]
      · rw [if_neg hk] at h
        obtain ⟨hval, hst, h⟩ := Option.bind_eq_some.mp h
        obtain ⟨marked, hmk, h⟩ := Option.bind_eq_some.mp h
        obtain ⟨⟨ds, ws⟩, h2, h⟩ := Option.bind_eq_some.mp h
        cases Option.some.inj h
        obtain ⟨i1, i2, i3⟩ := ih ds ws h2
        have hdm : descMarked (Json.obj pkvs) = marked := by
          rw [descMarked, hmk]
          rfl
        replace hk : hasKeyJ oaParams name = false := Bool.eq_false_iff.mpr hk
        by_cases hm : marked = true
        · rw [if_pos hm]
          refine ⟨?_, ?_, ?_⟩
          · rw [List.nil_append, i1, List.all_cons]
            simp [hk, hdm, hm]
          · rw [List.nil_append]
            exact i2
          · rw [List.nil_append]
            exact i3
        · replace hm : marked = false := Bool.eq_false_iff.mpr hm
          rw [if_neg (by rw [hm]; exact Bool.false_ne_true)]
          refine ⟨?_, ?_, ?_⟩
          · rw [noViol_append, List.all_cons]
            simp [hk, hdm, hm, noViol, extParamViol]
          · rw [noViol_append, i2]
            rfl
          · rw [noViol_append, i3]
            rfl
    | null =>
      rw [paramExtLoop] at h
      by_cases hk : hasKeyJ oaParams name = true
      · rw [if_pos hk] at h
        obtain ⟨i1, i2, i3⟩ := ih d v h
        refine ⟨?_, i2, i3⟩
        rw [i1, List.all_cons]
        simp [hk]
      · rw [if_neg hk] at h
        cases h
      exact fun tkvs htk => nomatch htk
    | bool b =>
      rw [paramExtLoop] at h
      by_cases hk : hasKeyJ oaParams name = true
      · rw [if_pos hk] at h
        obtain ⟨i1, i2, i3⟩ := ih d v h
        refine ⟨?_, i2, i3⟩
        rw [i1, List.all_cons]
        simp [hk]
      · rw [if_neg hk] at h
        cases h
      exact fun tkvs htk => nomatch htk
    | num m2 =>
      rw [paramExtLoop] at h
      by_cases hk : hasKeyJ oaParams name = true
      · rw [if_pos hk] at h
        obtain ⟨i1, i2, i3⟩ := ih d v h
        refine ⟨?_, i2, i3⟩
        rw [i1, List.all_cons]
        simp [hk]
      · rw [if_neg hk] at h
        cases h
      exact fun tkvs htk => nomatch htk
    | str s =>
      rw [paramExtLoop] at h
      by_cases hk : hasKeyJ oaParams name = true
      · rw [if_pos hk] at h
        obtain ⟨i1, i2, i3⟩ := ih d v h
        refine ⟨?_, i2, i3⟩
        rw [i1, List.all_cons]
        simp [hk]
      · rw [if_neg hk] at h
        cases h
      exact fun tkvs htk => nomatch htk
    | arr a =>
      rw [paramExtLoop] at h
      by_cases hk : hasKeyJ oaParams name = true
      · rw [if_pos hk] at h
        obtain ⟨i1, i2, i3⟩ := ih d v h
        refine ⟨?_, i2, i3⟩
        rw [i1, List.all_cons]
        simp [hk]
      · rw [if_neg hk] at h
        cases h
      exact fun tkvs htk => nomatch htk

/-- Violation/condition correspondence for the nested-object recursion,
assuming it for the recursive comparison. -/
theorem nestedCompare_cond
    (rec : String → Json → Json → Option (List SchemaDiff × List Violation))
    (recOk : Json → Json → Option (Bool × Bool)) (ctx f : String) (ov hv : Json)
    (d : List SchemaDiff) (v : List Violation)
    (h : nestedCompare rec ctx f ov hv = some (d, v))
    (hrec : ∀ (c : String) (o h2 : Json) (d2 : List SchemaDiff) (v2 : List Violation),
      rec c o h2 = some (d2, v2) →
      recOk o h2 =
        some (noViol "undocumented_missing" v2, noViol "unmarked_extension" v2) ∧
      noViol "missing_endpoint" v2 = true) :
    nestedCond recOk ov hv =
      some (noViol "undocumented_missing" v, noViol "unmarked_extension" v) ∧
    noViol "missing_endpoint" v = true := by
  cases ov with
  | obj okv =>
    cases hv with
    | obj hkv =>
      replace h : (if jsonIsStr (getKey okv "type") "object" then
          (if jsonIsStr (getKey hkv "type") "object" then
            rec (ctx ++ "." ++ f) (Json.obj okv) (Json.obj hkv)
          else some ([], []))
          else some ([], [])) = some (d, v) := h
      by_cases ho : jsonIsStr (getKey okv "type") "object" = true
      · rw [if_pos ho] at h
        by_cases hh : jsonIsStr (getKey hkv "type") "object" = true
        · rw [if_pos hh] at h
          obtain ⟨hr1, hr2⟩ := hrec (ctx ++ "." ++ f) (Json.obj okv) (Json.obj hkv) d v h
          refine ⟨?_, hr2⟩
          show (if jsonIsStr (getKey okv "type") "object" then
              (if jsonIsStr (getKey hkv "type") "object" then
                recOk (Json.obj okv) (Json.obj hkv)
              else some (true, true))
              else some (true, true)) =
            some (noViol "undocumented_missing" v, noViol "unmarked_extension" v)
          rw [if_pos ho, if_pos hh]
          exact hr1
        · rw [if_neg hh] at h
          cases Option.some.inj h
          refine ⟨?_, rfl⟩
          show (if jsonIsStr (getKey okv "type") "object" then
              (if jsonIsStr (getKey hkv "type") "object" then
                recOk (Json.obj okv) (Json.obj hkv)
              else some (true, true))
              else some (true, true)) =
            some (noViol "undocumented_missing" [], noViol "unmarked_extension" [])
          rw [if_pos ho, if_neg hh]
          rfl
      · rw [if_neg ho] at h
        cases Option.some.inj h
        refine ⟨?_, rfl⟩
        show (if jsonIsStr (getKey okv "type") "object" then
            (if jsonIsStr (getKey hkv "type") "object" then
              recOk (Json.obj okv) (Json.obj hkv)
            else some (true, true))
            else some (true, true)) =
          some (noViol "undocumented_missing" [], noViol "unmarked_extension" [])
        rw [if_neg ho]
        rfl
    | null =>
      replace h : (if jsonIsStr (getKey okv "type") "object" then
          (none : Option (List SchemaDiff × List Violation))
          else some ([], [])) = some (d, v) := h
      by_cases ho : jsonIsStr (getKey okv "type") "object" = true
      · rw [if_pos ho] at h
        exact Option.noConfusion h
      · rw [if_neg ho] at h
        cases Option.some.inj h
        refine ⟨?_, rfl⟩
        show (if jsonIsStr (getKey okv "type") "object" then some (true, true)
            else some (true, true)) =
          some (noViol "undocumented_missing" [], noViol "unmarked_extension" [])
        rw [if_neg ho]
        rfl
    | bool b =>
      replace h : (if jsonIsStr (getKey okv "type") "object" then
          (none : Option (List SchemaDiff × List Violation))
          else some ([], [])) = some (d, v) := h
      by_cases ho : jsonIsStr (getKey okv "type") "object" = true
      · rw [if_pos ho] at h
        exact Option.noConfusion h
      · rw [if_neg ho] at h
        cases Option.some.inj h
        refine ⟨?_, rfl⟩
        show (if jsonIsStr (getKey okv "type") "object" then some (true, true)
            else some (true, true)) =
          some (noViol "undocumented_missing" [], noViol "unmarked_extension" [])
        rw [if_neg ho]
        rfl
    | num m2 =>
      replace h : (if jsonIsStr (getKey okv "type") "object" then
          (none : Option (List SchemaDiff × List Violation))
          else some ([], [])) = some (d, v) := h
      by_cases ho : jsonIsStr (getKey okv "type") "object" = true
      · rw [if_pos ho] at h
        exact Option.noConfusion h
      · rw [if_neg ho] at h
        cases Option.some.inj h
        refine ⟨?_, rfl⟩
        show (if jsonIsStr (getKey okv "type") "object" then some (true, true)
            else some (true, true)) =
          some (noViol "undocumented_missing" [], noViol "unmarked_extension" [])
        rw [if_neg ho]
        rfl
    | str s =>
      replace h : (if jsonIsStr (getKey okv "type") "object" then
          (none : Option (List SchemaDiff × List Violation))
          else some ([], [])) = some (d, v) := h
      by_cases ho : jsonIsStr (getKey okv "type") "object" = true
      · rw [if_pos ho] at h
        exact Option.noConfusion h
      · rw [if_neg ho] at h
        cases Option.some.inj h
        refine ⟨?_, rfl⟩
        show (if jsonIsStr (getKey okv "type") "object" then some (true, true)
            else some (true, true)) =
          some (noViol "undocumented_missing" [], noViol "unmarked_extension" [])
        rw [if_neg ho]
        rfl
    | arr a =>
      replace h : (if jsonIsStr (getKey okv "type") "object" then
          (none : Option (List SchemaDiff × List Violation))
          else some ([], [])) = some (d, v) := h
      by_cases ho : jsonIsStr (getKey okv "type") "object" = true
      · rw [if_pos ho] at h
        exact Option.noConfusion h
      · rw [if_neg ho] at h
        cases Option.some.inj h
        refine ⟨?_, rfl⟩
        show (if jsonIsStr (getKey okv "type") "object" then some (true, true)
            else some (true, true)) =
          some (noViol "undocumented_missing" [], noViol "unmarked_extension" [])
        rw [if_neg ho]
        rfl
  | null => exact Option.noConfusion h
  | bool b => exact Option.noConfusion h
  | num m2 => exact Option.noConfusion h
  | str s => exact Option.noConfusion h
  | arr a => exact Option.noConfusion h

/-- Violation/condition correspondence for the common-field loop, assuming it
for the recursive comparison. -/
theorem commonLoop_cond (cls : Json → Option String)
    (rec : String → Json → Json → Option (List SchemaDiff × List Violation))
    (recOk : Json → Json → Option (Bool × Bool))
    (haProps : List (String × Json)) (oaReq haReq : List Json) (ctx : String)
    (hrec : ∀ (c : String) (o h2 : Json) (d2 : List SchemaDiff) (v2 : List Violation),
      rec c o h2 = some (d2, v2) →
      recOk o h2 =
        some (noViol "undocumented_missing" v2, noViol "unmarked_extension" v2) ∧
      noViol "missing_endpoint" v2 = true) :
    ∀ (l : List (String × Json)) (d : List SchemaDiff) (v : List Violation),
      commonLoop cls rec haProps oaReq haReq ctx l = some (d, v) →
      commonCond recOk haProps l =
        some (noViol "undocumented_missing" v, noViol "unmarked_extension" v) ∧
      noViol "missing_endpoint" v = true := by
  intro l
  induction l with
  | nil =>
    intro d v h
    rw [commonLoop] at h
    cases Option.some.inj h
    exact ⟨rfl, rfl⟩
  | cons fv rest ih =>
    obtain ⟨f, ov⟩ := fv
    intro d v h
    rw [commonLoop] at h
    cases hk : getKey haProps f with
    | none =>
      rw [hk] at h
      replace h : commonLoop cls rec haProps oaReq haReq ctx rest = some (d, v) := h
      obtain ⟨i1, i2⟩ := ih d v h
      refine ⟨?_, i2⟩
      rw [commonCond, hk]
      exact i1
    | some hv =>
      rw [hk] at h
      replace h : (cls ov >>= fun oat =>
          cls hv >>= fun hat =>
          nestedCompare rec ctx f ov hv >>= fun p =>
          commonLoop cls rec haProps oaReq haReq ctx rest >>= fun q =>
          some ((if !typesCompatible oat hat then [typeMismatchDiff ctx f oat hat] else []) ++
                (if inReq oaReq f && !inReq haReq f then [requiredMismatchDiff ctx f] else []) ++
                p.1 ++ q.1, p.2 ++ q.2)) = some (d, v) := h
      obtain ⟨oat, hoat, h⟩ := Option.bind_eq_some.mp h
      obtain ⟨hat, hhat, h⟩ := Option.bind_eq_some.mp h
      obtain ⟨⟨nd, nv⟩, hn, h⟩ := Option.bind_eq_some.mp h
      obtain ⟨⟨rd, rv⟩, hr, h⟩ := Option.bind_eq_some.mp h
      cases Option.some.inj h
      obtain ⟨n1, n2⟩ := nestedCompare_cond rec recOk ctx f ov hv nd nv hn hrec
      obtain ⟨i1, i2⟩ := ih rd rv hr
      constructor
      · rw [commonCond, hk]
        show (nestedCond recOk ov hv >>= fun p =>
            commonCond recOk haProps rest >>= fun q =>
            some (p.1 && q.1, p.2 && q.2)) =
          some (noViol "undocumented_missing" (nv ++ rv),
            noViol "unmarked_extension" (nv ++ rv))
        rw [n1, i1, noViol_append, noViol_append]
        rfl
      · rw [noViol_append, n2, i2]
        rfl

/-- Violation/condition correspondence for the full schema comparison. -/
theorem schemaCond_corr :
    ∀ (n : Nat) (ctx path method loc : String) (oa ha : Json)
      (d : List SchemaDiff) (v : List Violation),
      compareSchemas n ctx path method loc oa ha = some (d, v) →
      schemaCond n path method loc oa ha =
        some (noViol "undocumented_missing" v, noViol "unmarked_extension" v) ∧
      noViol "missing_endpoint" v = true := by
  intro n
  induction n with
  | zero =>
    intro ctx path method loc oa ha d v h
    rw [compareSchemas] at h
    cases h
  | succ n ih =>
    intro ctx path method loc oa ha d v h
    cases oa with
    | obj okvs =>
      cases ha with
      | obj hkvs =>
        rw [compareSchemas] at h
        replace h : (propsOf okvs >>= fun oaProps =>
            propsOf hkvs >>= fun haProps =>
            reqSetOf okvs >>= fun oaReq =>
            reqSetOf hkvs >>= fun haReq =>
            missingLoop (fun j => getTypeString (n + 1) j) haProps oaReq
              ctx path method loc oaProps >>= fun p1 =>
            extLoop (fun j => getTypeString (n + 1) j) oaProps
              ctx path method loc haProps >>= fun p2 =>
            commonLoop (fun j => getTypeString (n + 1) j)
              (fun c o hb => compareSchemas n c path method loc o hb) haProps oaReq haReq
              ctx oaProps >>= fun p3 =>
            some (p1.1 ++ p2.1 ++ p3.1, p1.2 ++ p2.2 ++ p3.2)) = some (d, v) := h
        obtain ⟨oaProps, hp, h⟩ := Option.bind_eq_some.mp h
        obtain ⟨haProps, hq, h⟩ := Option.bind_eq_some.mp h
        obtain ⟨oaReq, hr, h⟩ := Option.bind_eq_some.mp h
        obtain ⟨haReq, hs, h⟩ := Option.bind_eq_some.mp h
        obtain ⟨⟨d1, v1⟩, h1, h⟩ := Option.bind_eq_some.mp h
        obtain ⟨⟨d2, v2⟩, h2, h⟩ := Option.bind_eq_some.mp h
        obtain ⟨⟨d3, v3⟩, h3, h⟩ := Option.bind_eq_some.mp h
        cases Option.some.inj h
        obtain ⟨m1, m2, m3⟩ := missingLoop_cond (fun j => getTypeString (n + 1) j)
          haProps oaReq ctx path method loc oaProps d1 v1 h1
        obtain ⟨e1, e2, e3⟩ := extLoop_cond (fun j => getTypeString (n + 1) j)
          oaProps ctx path method loc haProps d2 v2 h2
        obtain ⟨c1, c2⟩ := commonLoop_cond (fun j => getTypeString (n + 1) j)
          (fun c o hb => compareSchemas n c path method loc o hb)
          (fun o hb => schemaCond n path method loc o hb) haProps oaReq haReq ctx
          (fun c o h2 d2 v2 hr2 => ih c path method loc o h2 d2 v2 hr2)
          oaProps d3 v3 h3
        constructor
        · show (propsOf okvs >>= fun oaProps =>
              propsOf hkvs >>= fun haProps =>
              commonCond (fun o hb => schemaCond n path method loc o hb)
                haProps oaProps >>= fun p =>
              some ((oaProps.all fun fv =>
                  hasKey haProps fv.1 || docHas path method loc fv.1) && p.1,
                (haProps.all fun fh => hasKey oaProps fh.1 || descMarked fh.2) && p.2)) =
            some (noViol "undocumented_missing" (v1 ++ v2 ++ v3),
              noViol "unmarked_extension" (v1 ++ v2 ++ v3))
          rw [hp, hq]
          show (commonCond (fun o hb => schemaCond n path method loc o hb)
              haProps oaProps >>= fun p =>
              some ((oaProps.all fun fv =>
                  hasKey haProps fv.1 || docHas path method loc fv.1) && p.1,
                (haProps.all fun fh => hasKey oaProps fh.1 || descMarked fh.2) && p.2)) =
            some (noViol "undocumented_missing" (v1 ++ v2 ++ v3),
              noViol "unmarked_extension" (v1 ++ v2 ++ v3))
          rw [c1, noViol_append, noViol_append, noViol_append, noViol_append,
            m1, m2, e1, e2]
          simp
        · rw [noViol_append, noViol_append, m3, e3, c2]
          rfl
      | null => exact Option.noConfusion h
      | bool b => exact Option.noConfusion h
      | num m2 => exact Option.noConfusion h
      | str s => exact Option.noConfusion h
      | arr a => exact Option.noConfusion h
    | null => exact Option.noConfusion h
    | bool b => exact Option.noConfusion h
    | num m2 => exact Option.noConfusion h
    | str s => exact Option.noConfusion h
    | arr a => exact Option.noConfusion h

/-- Violation/condition correspondence for one body comparison. -/
theorem bodyCond_corr (fuel : Nat) (oaSpec haSpec : Json) (ctx path mu loc : String)
    (oaBody haBody : Json) (d : List SchemaDiff) (v : List Violation)
    (h : bodyCompare fuel oaSpec haSpec ctx path mu loc oaBody haBody = some (d, v)) :
    bodyCond fuel oaSpec haSpec path mu loc oaBody haBody =
      some (noViol "undocumented_missing" v, noViol "unmarked_extension" v) ∧
    noViol "missing_endpoint" v = true := by
  rw [bodyCompare] at h
  rw [bodyCond]
  by_cases ht : (truthy oaBody && truthy haBody) = true
  · rw [if_pos ht] at h ⊢
    obtain ⟨roa, h1, h⟩ := Option.bind_eq_some.mp h
    obtain ⟨rha, h2, h⟩ := Option.bind_eq_some.mp h
    obtain ⟨s1, s2⟩ := schemaCond_corr fuel ctx path mu loc roa rha d v h
    refine ⟨?_, s2⟩
    rw [h1, h2]
    exact s1
  · rw [if_neg ht] at h ⊢
    cases Option.some.inj h
    exact ⟨rfl, rfl⟩

/-- Violation/condition correspondence for one endpoint comparison. -/
theorem endpointCond_corr (fuel : Nat) (oaSpec haSpec : Json) (path method : String)
    (oaOp haOp : Json) (ed : EndpointDiff) (v : List Violation)
    (h : compareEndpoint fuel oaSpec haSpec path method oaOp haOp = some (ed, v)) :
    endpointCond fuel oaSpec haSpec path method oaOp haOp =
      some (noViol "undocumented_missing" v, noViol "unmarked_extension" v) ∧
    noViol "missing_endpoint" v = true := by
  cases oaOp with
  | obj okvs =>
    cases haOp with
    | obj hkvs =>
      replace h : (dig (Json.obj okvs) requestBodyPath >>= fun oaBody =>
          dig (Json.obj hkvs) requestBodyPath >>= fun haBody =>
          bodyCompare fuel oaSpec haSpec (path ++ " request") path (strUpper method)
            "request" oaBody haBody >>= fun pr =>
          dig (Json.obj okvs) responseBodyPath >>= fun oaResp =>
          dig (Json.obj hkvs) responseBodyPath >>= fun haResp =>
          bodyCompare fuel oaSpec haSpec (path ++ " response") path (strUpper method)
            "response" oaResp haResp >>= fun ps =>
          pyIter (getKeyD okvs "parameters" (Json.arr [])) >>= fun oaParamsRaw =>
          pyIter (getKeyD hkvs "parameters" (Json.arr [])) >>= fun haParamsRaw =>
          buildParams oaParamsRaw >>= fun oaParams =>
          buildParams haParamsRaw >>= fun haParams =>
          paramMissingLoop haParams path (strUpper method) oaParams >>= fun q1 =>
          paramExtLoop oaParams path (strUpper method) haParams >>= fun q2 =>
          some (({ path := path, method := strUpper method, request_diffs := pr.1,
                   response_diffs := ps.1, param_diffs := q1.1 ++ q2.1,
                   missing_in_hadrian := false,
                   hadrian_extension := false } : EndpointDiff),
                pr.2 ++ ps.2 ++ q1.2 ++ q2.2)) = some (ed, v) := h
      obtain ⟨oaBody, hb1, h⟩ := Option.bind_eq_some.mp h
      obtain ⟨haBody, hb2, h⟩ := Option.bind_eq_some.mp h
      obtain ⟨⟨reqD, reqV⟩, hbr, h⟩ := Option.bind_eq_some.mp h
      obtain ⟨oaResp, hr1, h⟩ := Option.bind_eq_some.mp h
      obtain ⟨haResp, hr2, h⟩ := Option.bind_eq_some.mp h
      obtain ⟨⟨respD, respV⟩, hbs, h⟩ := Option.bind_eq_some.mp h
      obtain ⟨oaParamsRaw, hi1, h⟩ := Option.bind_eq_some.mp h
      obtain ⟨haParamsRaw, hi2, h⟩ := Option.bind_eq_some.mp h
      obtain ⟨oaParams, hbp1, h⟩ := Option.bind_eq_some.mp h
      obtain ⟨haParams, hbp2, h⟩ := Option.bind_eq_some.mp h
      obtain ⟨⟨pd1, pv1⟩, hq1, h⟩ := Option.bind_eq_some.mp h
      obtain ⟨⟨pd2, pv2⟩, hq2, h⟩ := Option.bind_eq_some.mp h
      cases Option.some.inj h
      obtain ⟨r1, r2⟩ := bodyCond_corr fuel oaSpec haSpec (path ++ " request") path
        (strUpper method) "request" oaBody haBody reqD reqV hbr
      obtain ⟨s1, s2⟩ := bodyCond_corr fuel oaSpec haSpec (path ++ " response") path
        (strUpper method) "response" oaResp haResp respD respV hbs
      obtain ⟨p1, p2, p3⟩ := paramMissingLoop_cond haParams path (strUpper method)
        oaParams pd1 pv1 hq1
      obtain ⟨t1, t2, t3⟩ := paramExtLoop_cond oaParams path (strUpper method)
        haParams pd2 pv2 hq2
      constructor
      · show (dig (Json.obj okvs) requestBodyPath >>= fun oaBody =>
            dig (Json.obj hkvs) requestBodyPath >>= fun haBody =>
            bodyCond fuel oaSpec haSpec path (strUpper method) "request"
              oaBody haBody >>= fun q =>
            dig (Json.obj okvs) responseBodyPath >>= fun oaResp =>
            dig (Json.obj hkvs) responseBodyPath >>= fun haResp =>
            bodyCond fuel oaSpec haSpec path (strUpper method) "response"
              oaResp haResp >>= fun s =>
            pyIter (getKeyD okvs "parameters" (Json.arr [])) >>= fun oaParamsRaw =>
            pyIter (getKeyD hkvs "parameters" (Json.arr [])) >>= fun haParamsRaw =>
            buildParams oaParamsRaw >>= fun oaParams =>
            buildParams haParamsRaw >>= fun haParams =>
            some (q.1 && s.1 && oaParams.all
                (fun np => hasKeyJ haParams np.1 ||
                  docHasJ path (strUpper method) "param" np.1),
              q.2 && s.2 && haParams.all
                (fun np => hasKeyJ oaParams np.1 || descMarked np.2))) =
          some (noViol "undocumented_missing" (reqV ++ respV ++ pv1 ++ pv2),
            noViol "unmarked_extension" (reqV ++ respV ++ pv1 ++ pv2))
        simp only [hb1, hb2, hr1, hr2, hi1, hi2, hbp1, hbp2, Option.bind_eq_bind,
          Option.some_bind, r1, s1]
        rw [noViol_append, noViol_append, noViol_append,
          noViol_append, noViol_append, noViol_append, p1, p2, t1, t2]
        simp
      · rw [noViol_append, noViol_append, noViol_append, r2, s2, p3, t3]
        rfl
    | null => exact Option.noConfusion h
    | bool b => exact Option.noConfusion h
    | num m2 => exact Option.noConfusion h
    | str s => exact Option.noConfusion h
    | arr a => exact Option.noConfusion h
  | null => exact Option.noConfusion h
  | bool b => exact Option.noConfusion h
  | num m2 => exact Option.noConfusion h
  | str s => exact Option.noConfusion h
  | arr a => exact Option.noConfusion h

/-- Every violation an endpoint comparison produces is an undocumented missing
field/parameter or an unmarked extension. -/
theorem compareEndpoint_vtypes (fuel : Nat) (oaSpec haSpec : Json)
    (path method : String) (oaOp haOp : Json) (ed : EndpointDiff) (v : List Violation)
    (h : compareEndpoint fuel oaSpec haSpec path method oaOp haOp = some (ed, v)) :
    ∀ vi ∈ v, violTyped vi := by
  cases oaOp with
  | obj okvs =>
    cases haOp with
    | obj hkvs =>
      replace h : (dig (Json.obj okvs) requestBodyPath >>= fun oaBody =>
          dig (Json.obj hkvs) requestBodyPath >>= fun haBody =>
          bodyCompare fuel oaSpec haSpec (path ++ " request") path (strUpper method)
            "request" oaBody haBody >>= fun pr =>
          dig (Json.obj okvs) responseBodyPath >>= fun oaResp =>
          dig (Json.obj hkvs) responseBodyPath >>= fun haResp =>
          bodyCompare fuel oaSpec haSpec (path ++ " response") path (strUpper method)
            "response" oaResp haResp >>= fun ps =>
          pyIter (getKeyD okvs "parameters" (Json.arr [])) >>= fun oaParamsRaw =>
          pyIter (getKeyD hkvs "parameters" (Json.arr [])) >>= fun haParamsRaw =>
          buildParams oaParamsRaw >>= fun oaParams =>
          buildParams haParamsRaw >>= fun haParams =>
          paramMissingLoop haParams path (strUpper method) oaParams >>= fun q1 =>
          paramExtLoop oaParams path (strUpper method) haParams >>= fun q2 =>
          some (({ path := path, method := strUpper method, request_diffs := pr.1,
                   response_diffs := ps.1, param_diffs := q1.1 ++ q2.1,
                   missing_in_hadrian := false,
                   hadrian_extension := false } : EndpointDiff),
                pr.2 ++ ps.2 ++ q1.2 ++ q2.2)) = some (ed, v) := h
      obtain ⟨oaBody, hb1, h⟩ := Option.bind_eq_some.mp h
      obtain ⟨haBody, hb2, h⟩ := Option.bind_eq_some.mp h
      obtain ⟨⟨reqD, reqV⟩, hbr, h⟩ := Option.bind_eq_some.mp h
      obtain ⟨oaResp, hr1, h⟩ := Option.bind_eq_some.mp h
      obtain ⟨haResp, hr2, h⟩ := Option.bind_eq_some.mp h
      obtain ⟨⟨respD, respV⟩, hbs, h⟩ := Option.bind_eq_some.mp h
      obtain ⟨oaParamsRaw, hi1, h⟩ := Option.bind_eq_some.mp h
      obtain ⟨haParamsRaw, hi2, h⟩ := Option.bind_eq_some.mp h
      obtain ⟨oaParams, hbp1, h⟩ := Option.bind_eq_some.mp h
      obtain ⟨haParams, hbp2, h⟩ := Option.bind_eq_some.mp h
      obtain ⟨⟨pd1, pv1⟩, hq1, h⟩ := Option.bind_eq_some.mp h
      obtain ⟨⟨pd2, pv2⟩, hq2, h⟩ := Option.bind_eq_some.mp h
      cases Option.some.inj h
      intro vi hm
      have hshape : violShape path (strUpper method) "request" vi ∨
          violShape path (strUpper method) "response" vi ∨
          violShape path (strUpper method) "param" vi := by
        rcases List.mem_append.mp hm with hm1 | hm4
        · rcases List.mem_append.mp hm1 with hm2 | hm3
          · rcases List.mem_append.mp hm2 with hma | hmb
            · exact Or.inl (bodyCompare_viols fuel oaSpec haSpec (path ++ " request")
                path (strUpper method) "request" oaBody haBody reqD reqV hbr vi hma)
            · exact Or.inr (Or.inl (bodyCompare_viols fuel oaSpec haSpec
                (path ++ " response") path (strUpper method) "response" oaResp haResp
                respD respV hbs vi hmb))
          · exact Or.inr (Or.inr (paramMissingLoop_viols haParams path (strUpper method)
              oaParams pd1 pv1 hq1 vi hm3))
        · exact Or.inr (Or.inr (paramExtLoop_viols oaParams path (strUpper method)
            haParams pd2 pv2 hq2 vi hm4))
      rcases hshape with hs1 | hs2 | hs3
      · rcases hs1.2.2.2 with ⟨ht, -⟩ | ht
        · exact Or.inr (Or.inl ht)
        · exact Or.inr (Or.inr ht)
      · rcases hs2.2.2.2 with ⟨ht, -⟩ | ht
        · exact Or.inr (Or.inl ht)
        · exact Or.inr (Or.inr ht)
      · rcases hs3.2.2.2 with ⟨ht, -⟩ | ht
        · exact Or.inr (Or.inl ht)
        · exact Or.inr (Or.inr ht)
    | null => exact Option.noConfusion h
    | bool b => exact Option.noConfusion h
    | num m2 => exact Option.noConfusion h
    | str s => exact Option.noConfusion h
    | arr a => exact Option.noConfusion h
  | null => exact Option.noConfusion h
  | bool b => exact Option.noConfusion h
  | num m2 => exact Option.noConfusion h
  | str s => exact Option.noConfusion h
  | arr a => exact Option.noConfusion h

/-- Violation/condition correspondence for one step of the method loop. -/
theorem methodStep_cond (fuel : Nat) (oaSpec haSpec : Json) (oaPath : String)
    (ok hk2 : List (String × Json)) (r r' : ConformanceReport) (m : String)
    (h : methodStep fuel oaSpec haSpec oaPath ok hk2 r m = some r') :
    ∃ Δ, r'.violations = r.violations ++ Δ ∧ (∀ vi ∈ Δ, violTyped vi) ∧
      methodCond fuel oaSpec haSpec oaPath ok hk2 m =
        some (noViol "missing_endpoint" Δ, noViol "undocumented_missing" Δ,
          noViol "unmarked_extension" Δ) := by
  rw [methodStep] at h
  cases hg : getKey ok m with
  | none =>
    rw [hg] at h
    replace h : some r = some r' := h
    cases Option.some.inj h
    refine ⟨[], (List.append_nil _).symm, fun vi hv => absurd hv (List.not_mem_nil vi), ?_⟩
    rw [methodCond, hg]
    rfl
  | some oaOp =>
    rw [hg] at h
    replace h : (if isMethodOutOfScope oaPath m then some r
        else
          match getKey hk2 m with
          | none =>
            some { r with
              endpoints_checked := r.endpoints_checked + 1,
              endpoints_with_diffs :=
                r.endpoints_with_diffs ++ [missingEndpointDiff oaPath m],
              violations := r.violations ++ [missingEndpointViol oaPath m] }
          | some haOp =>
            match compareEndpoint fuel oaSpec haSpec oaPath m oaOp haOp with
            | none => none
            | some (ed, vs) =>
              if ed.request_diffs.isEmpty && ed.response_diffs.isEmpty &&
                  ed.param_diffs.isEmpty then
                some { r with
                  endpoints_checked := r.endpoints_checked + 1,
                  violations := r.violations ++ vs,
                  fully_conformant := r.fully_conformant + 1 }
              else
                some { r with
                  endpoints_checked := r.endpoints_checked + 1,
                  violations := r.violations ++ vs,
                  endpoints_with_diffs := r.endpoints_with_diffs ++ [ed] }) =
        some r' := h
    by_cases hs : isMethodOutOfScope oaPath m = true
    · rw [if_pos hs] at h
      cases Option.some.inj h
      refine ⟨[], (List.append_nil _).symm, fun vi hv => absurd hv (List.not_mem_nil vi), ?_⟩
      rw [methodCond, hg]
      show (if isMethodOutOfScope oaPath m then
          some ((true : Bool), (true : Bool), (true : Bool))
        else match getKey hk2 m with
          | none => some (false, true, true)
          | some haOp =>
            endpointCond fuel oaSpec haSpec oaPath m oaOp haOp >>= fun p =>
            some (true, p.1, p.2)) =
        some (noViol "missing_endpoint" [], noViol "undocumented_missing" [],
          noViol "unmarked_extension" [])
      rw [if_pos hs]
      rfl
    · rw [if_neg hs] at h
      cases hh : getKey hk2 m with
      | none =>
        rw [hh] at h
        replace h : some { r with
            endpoints_checked := r.endpoints_checked + 1,
            endpoints_with_diffs :=
              r.endpoints_with_diffs ++ [missingEndpointDiff oaPath m],
            violations := r.violations ++ [missingEndpointViol oaPath m] } = some r' := h
        cases Option.some.inj h
        refine ⟨[missingEndpointViol oaPath m], rfl, ?_, ?_⟩
        · intro vi hv
          rw [List.mem_singleton] at hv
          subst hv
          exact Or.inl rfl
        · rw [methodCond, hg]
          show (if isMethodOutOfScope oaPath m then
              some ((true : Bool), (true : Bool), (true : Bool))
            else match getKey hk2 m with
              | none => some (false, true, true)
              | some haOp =>
                endpointCond fuel oaSpec haSpec oaPath m oaOp haOp >>= fun p =>
                some (true, p.1, p.2)) =
            some (noViol "missing_endpoint" [missingEndpointViol oaPath m],
              noViol "undocumented_missing" [missingEndpointViol oaPath m],
              noViol "unmarked_extension" [missingEndpointViol oaPath m])
          rw [if_neg hs, hh]
          rfl
      | some haOp =>
        rw [hh] at h
        cases hce : compareEndpoint fuel oaSpec haSpec oaPath m oaOp haOp with
        | none =>
          replace h : (match compareEndpoint fuel oaSpec haSpec oaPath m oaOp haOp with
              | none => none
              | some (ed, vs) =>
                if ed.request_diffs.isEmpty && ed.response_diffs.isEmpty &&
                    ed.param_diffs.isEmpty then
                  some { r with
                    endpoints_checked := r.endpoints_checked + 1,
                    violations := r.violations ++ vs,
                    fully_conformant := r.fully_conformant + 1 }
                else
                  some { r with
                    endpoints_checked := r.endpoints_checked + 1,
                    violations := r.violations ++ vs,
                    endpoints_with_diffs := r.endpoints_with_diffs ++ [ed] }) =
              some r' := h
          rw [hce] at h
          exact Option.noConfusion h
        | some edvs =>
          obtain ⟨ed, vs⟩ := edvs
          replace h : (match compareEndpoint fuel oaSpec haSpec oaPath m oaOp haOp with
              | none => none
              | some (ed, vs) =>
                if ed.request_diffs.isEmpty && ed.response_diffs.isEmpty &&
                    ed.param_diffs.isEmpty then
                  some { r with
                    endpoints_checked := r.endpoints_checked + 1,
                    violations := r.violations ++ vs,
                    fully_conformant := r.fully_conformant + 1 }
                else
                  some { r with
                    endpoints_checked := r.endpoints_checked + 1,
                    violations := r.violations ++ vs,
                    endpoints_with_diffs := r.endpoints_with_diffs ++ [ed] }) =
              some r' := h
          rw [hce] at h
          replace h : (if ed.request_diffs.isEmpty && ed.response_diffs.isEmpty &&
                ed.param_diffs.isEmpty then
              some { r with
                endpoints_checked := r.endpoints_checked + 1,
                violations := r.violations ++ vs,
                fully_conformant := r.fully_conformant + 1 }
            else
              some { r with
                endpoints_checked := r.endpoints_checked + 1,
                violations := r.violations ++ vs,
                endpoints_with_diffs := r.endpoints_with_diffs ++ [ed] }) = some r' := h
          obtain ⟨e1, e2⟩ := endpointCond_corr fuel oaSpec haSpec oaPath m oaOp haOp
            ed vs hce
          have htyped := compareEndpoint_vtypes fuel oaSpec haSpec oaPath m oaOp haOp
            ed vs hce
          have hgoal : methodCond fuel oaSpec haSpec oaPath ok hk2 m =
              some (noViol "missing_endpoint" vs, noViol "undocumented_missing" vs,
                noViol "unmarked_extension" vs) := by
            rw [methodCond, hg]
            show (if isMethodOutOfScope oaPath m then
                some ((true : Bool), (true : Bool), (true : Bool))
              else match getKey hk2 m with
                | none => some (false, true, true)
                | some haOp =>
                  endpointCond fuel oaSpec haSpec oaPath m oaOp haOp >>= fun p =>
                  some (true, p.1, p.2)) =
              some (noViol "missing_endpoint" vs, noViol "undocumented_missing" vs,
                noViol "unmarked_extension" vs)
            rw [if_neg hs, hh]
            show (endpointCond fuel oaSpec haSpec oaPath m oaOp haOp >>= fun p =>
                some (true, p.1, p.2)) =
              some (noViol "missing_endpoint" vs, noViol "undocumented_missing" vs,
                noViol "unmarked_extension" vs)
            rw [e1, e2]
            rfl
          by_cases hed : (ed.request_diffs.isEmpty && ed.response_diffs.isEmpty &&
              ed.param_diffs.isEmpty) = true
          · rw [if_pos hed] at h
            cases Option.some.inj h
            exact ⟨vs, rfl, htyped, hgoal⟩
          · rw [if_neg hed] at h
            cases Option.some.inj h
            exact ⟨vs, rfl, htyped, hgoal⟩

/-- Violation/condition correspondence through `optFold`, given it for each
step. -/
theorem condFold_corr {α β : Type} (step : β → α → Option β)
    (cond : α → Option (Bool × Bool × Bool)) (viol : β → List Violation)
    (hstep : ∀ (r : β) (x : α) (r' : β), step r x = some r' →
      ∃ Δ, viol r' = viol r ++ Δ ∧ (∀ vi ∈ Δ, violTyped vi) ∧
        cond x = some (noViol "missing_endpoint" Δ, noViol "undocumented_missing" Δ,
          noViol "unmarked_extension" Δ)) :
    ∀ (l : List α) (r r' : β), optFold step r l = some r' →
      ∃ Δ, viol r' = viol r ++ Δ ∧ (∀ vi ∈ Δ, violTyped vi) ∧
        condFold cond l = some (noViol "missing_endpoint" Δ,
          noViol "undocumented_missing" Δ, noViol "unmarked_extension" Δ) := by
  intro l
  induction l with
  | nil =>
    intro r r' h
    rw [optFold] at h
    cases Option.some.inj h
    exact ⟨[], (List.append_nil _).symm,
      fun vi hv => absurd hv (List.not_mem_nil vi), rfl⟩
  | cons x rest ih =>
    intro r r' h
    rw [optFold] at h
    cases hs : step r x with
    | none =>
      rw [hs] at h
      cases h
    | some r2 =>
      rw [hs] at h
      obtain ⟨d1, hv1, ht1, hc1⟩ := hstep r x r2 hs
      obtain ⟨d2, hv2, ht2, hc2⟩ := ih r2 r' h
      refine ⟨d1 ++ d2, ?_, ?_, ?_⟩
      · rw [hv2, hv1, List.append_assoc]
      · intro vi hv
        rcases List.mem_append.mp hv with hm1 | hm2
        · exact ht1 vi hm1
        · exact ht2 vi hm2
      · rw [condFold, hc1, hc2]
        show some (noViol "missing_endpoint" d1 && noViol "missing_endpoint" d2,
            noViol "undocumented_missing" d1 && noViol "undocumented_missing" d2,
            noViol "unmarked_extension" d1 && noViol "unmarked_extension" d2) =
          some (noViol "missing_endpoint" (d1 ++ d2),
            noViol "undocumented_missing" (d1 ++ d2),
            noViol "unmarked_extension" (d1 ++ d2))
        rw [noViol_append, noViol_append, noViol_append]

/-- Violation/condition correspondence for one step of the path loop. -/
theorem pathStep_cond (fuel : Nat) (oaSpec haSpec : Json)
    (haPathsKvs : List (String × Json)) (filt : Option String)
    (r r' : ConformanceReport) (entry : String × Json)
    (h : pathStep fuel oaSpec haSpec haPathsKvs filt r entry = some r') :
    ∃ Δ, r'.violations = r.violations ++ Δ ∧ (∀ vi ∈ Δ, violTyped vi) ∧
      pathCond fuel oaSpec haSpec haPathsKvs filt entry =
        some (noViol "missing_endpoint" Δ, noViol "undocumented_missing" Δ,
          noViol "unmarked_extension" Δ) := by
  rw [pathStep] at h
  rw [pathCond]
  by_cases ho : isOutOfScope entry.1 = true
  · rw [if_pos ho] at h ⊢
    cases Option.some.inj h
    exact ⟨[], (List.append_nil _).symm,
      fun vi hv => absurd hv (List.not_mem_nil vi), rfl⟩
  · rw [if_neg ho] at h ⊢
    by_cases hf : filterSkips filt entry.1 = true
    · rw [if_pos hf] at h ⊢
      cases Option.some.inj h
      exact ⟨[], (List.append_nil _).symm,
        fun vi hv => absurd hv (List.not_mem_nil vi), rfl⟩
    · rw [if_neg hf] at h ⊢
      cases he2 : entry.2 with
      | obj oaM =>
        rw [he2] at h
        replace h : (match getKeyD haPathsKvs (hadrianPathFor entry.1) (Json.obj []) with
            | Json.obj haM =>
              optFold (methodStep fuel oaSpec haSpec entry.1 oaM haM) r httpMethods
            | _ => none) = some r' := h
        cases hd : getKeyD haPathsKvs (hadrianPathFor entry.1) (Json.obj []) with
        | obj haM =>
          rw [hd] at h
          replace h : optFold (methodStep fuel oaSpec haSpec entry.1 oaM haM) r
              httpMethods = some r' := h
          obtain ⟨d1, hv1, ht1, hc1⟩ := condFold_corr
            (methodStep fuel oaSpec haSpec entry.1 oaM haM)
            (methodCond fuel oaSpec haSpec entry.1 oaM haM)
            ConformanceReport.violations
            (fun r2 x r3 hx => methodStep_cond fuel oaSpec haSpec entry.1 oaM haM
              r2 r3 x hx)
            httpMethods r r' h
          exact ⟨d1, hv1, ht1, hc1⟩
        | null =>
          rw [hd] at h
          exact Option.noConfusion h
        | bool b =>
          rw [hd] at h
          exact Option.noConfusion h
        | num m2 =>
          rw [hd] at h
          exact Option.noConfusion h
        | str s =>
          rw [hd] at h
          exact Option.noConfusion h
        | arr a =>
          rw [hd] at h
          exact Option.noConfusion h
      | null =>
        rw [he2] at h
        exact Option.noConfusion h
      | bool b =>
        rw [he2] at h
        exact Option.noConfusion h
      | num m2 =>
        rw [he2] at h
        exact Option.noConfusion h
      | str s =>
        rw [he2] at h
        exact Option.noConfusion h
      | arr a =>
        rw [he2] at h
        exact Option.noConfusion h

/-- The Hadrian-only loop never touches the violation list. -/
theorem hadrianOnlyFold_violations (oaP : List (String × Json)) :
    ∀ (l : List (String × Json)) (r : ConformanceReport),
      (l.foldl (hadrianOnlyStep oaP) r).violations = r.violations := by
  intro l
  induction l with
  | nil =>
    intro r
    rfl
  | cons e rest ih =>
    intro r
    show (rest.foldl (hadrianOnlyStep oaP) (hadrianOnlyStep oaP r e)).violations =
      r.violations
    rw [ih (hadrianOnlyStep oaP r e)]
    rw [hadrianOnlyStep]
    split
    · rfl
    · split
      · rfl
      · split
        · split
          · rfl
          · rfl
        · rfl

/-- Violation/condition correspondence for the whole conformance check, with
the shape of every returned violation. -/
theorem checkCond_corr (fuel : Nat) (filt : Option String) (oa ha : Json)
    (r : ConformanceReport) (h : checkConformance fuel filt oa ha = some r) :
    checkCond fuel filt oa ha = some (noViol "missing_endpoint" r.violations,
      noViol "undocumented_missing" r.violations,
      noViol "unmarked_extension" r.violations) ∧
    ∀ vi ∈ r.violations, violTyped vi := by
  cases oa with
  | obj oaKvs =>
    cases ha with
    | obj haKvs =>
      rw [checkConformance] at h
      replace h : (match getKeyD oaKvs "paths" (Json.obj []),
            getKeyD haKvs "paths" (Json.obj []) with
          | Json.obj oaPathsKvs, Json.obj haPathsKvs =>
            (match getKeyD oaKvs "info" (Json.obj []),
                getKeyD haKvs "info" (Json.obj []) with
             | Json.obj oaInfo, Json.obj haInfo =>
               (match optFold (pathStep fuel (Json.obj oaKvs) (Json.obj haKvs)
                    haPathsKvs filt)
                   (initReport oaInfo haInfo oaPathsKvs haPathsKvs) oaPathsKvs with
                | none => none
                | some r1 => some (haPathsKvs.foldl (hadrianOnlyStep oaPathsKvs) r1))
             | _, _ => none)
          | _, _ => none) = some r := h
      cases hpo : getKeyD oaKvs "paths" (Json.obj []) with
      | obj oaPathsKvs =>
        rw [hpo] at h
        cases hpa : getKeyD haKvs "paths" (Json.obj []) with
        | obj haPathsKvs =>
          rw [hpa] at h
          replace h : (match getKeyD oaKvs "info" (Json.obj []),
                getKeyD haKvs "info" (Json.obj []) with
              | Json.obj oaInfo, Json.obj haInfo =>
                (match optFold (pathStep fuel (Json.obj oaKvs) (Json.obj haKvs)
                     haPathsKvs filt)
                    (initReport oaInfo haInfo oaPathsKvs haPathsKvs) oaPathsKvs with
                 | none => none
                 | some r1 => some (haPathsKvs.foldl (hadrianOnlyStep oaPathsKvs) r1))
              | _, _ => none) = some r := h
          cases hio : getKeyD oaKvs "info" (Json.obj []) with
          | obj oaInfo =>
            rw [hio] at h
            cases hia : getKeyD haKvs "info" (Json.obj []) with
            | obj haInfo =>
              rw [hia] at h
              replace h : (match optFold (pathStep fuel (Json.obj oaKvs)
                    (Json.obj haKvs) haPathsKvs filt)
                  (initReport oaInfo haInfo oaPathsKvs haPathsKvs) oaPathsKvs with
                  | none => none
                  | some r1 =>
                    some (haPathsKvs.foldl (hadrianOnlyStep oaPathsKvs) r1)) =
                some r := h
              cases hfo : optFold (pathStep fuel (Json.obj oaKvs) (Json.obj haKvs)
                  haPathsKvs filt)
                  (initReport oaInfo haInfo oaPathsKvs haPathsKvs) oaPathsKvs with
              | none =>
                rw [hfo] at h
                exact Option.noConfusion h
              | some r1 =>
                rw [hfo] at h
                replace h : some (haPathsKvs.foldl (hadrianOnlyStep oaPathsKvs) r1) =
                  some r := h
                cases Option.some.inj h
                have hviol := hadrianOnlyFold_violations oaPathsKvs haPathsKvs r1
                obtain ⟨dd, hv1, ht1, hc1⟩ := condFold_corr
                  (pathStep fuel (Json.obj oaKvs) (Json.obj haKvs) haPathsKvs filt)
                  (pathCond fuel (Json.obj oaKvs) (Json.obj haKvs) haPathsKvs filt)
                  ConformanceReport.violations
                  (fun r2 x r3 hx => pathStep_cond fuel (Json.obj oaKvs)
                    (Json.obj haKvs) haPathsKvs filt r2 r3 x hx)
                  oaPathsKvs (initReport oaInfo haInfo oaPathsKvs haPathsKvs) r1 hfo
                replace hv1 : r1.violations = dd := by
                  rw [hv1]
                  exact List.nil_append dd
                constructor
                · rw [checkCond]
                  rw [hpo, hpa, hviol, hv1]
                  exact hc1
                · intro vi hm
                  rw [hviol, hv1] at hm
                  exact ht1 vi hm
            | null =>
              rw [hia] at h
              exact Option.noConfusion h
            | bool b =>
              rw [hia] at h
              exact Option.noConfusion h
            | num m2 =>
              rw [hia] at h
              exact Option.noConfusion h
            | str s =>
              rw [hia] at h
              exact Option.noConfusion h
            | arr a =>
              rw [hia] at h
              exact Option.noConfusion h
          | null =>
            rw [hio] at h
            exact Option.noConfusion h
          | bool b =>
            rw [hio] at h
            exact Option.noConfusion h
          | num m2 =>
            rw [hio] at h
            exact Option.noConfusion h
          | str s =>
            rw [hio] at h
            exact Option.noConfusion h
          | arr a =>
            rw [hio] at h
            exact Option.noConfusion h
        | null =>
          rw [hpa] at h
          exact Option.noConfusion h
        | bool b =>
          rw [hpa] at h
          exact Option.noConfusion h
        | num m2 =>
          rw [hpa] at h
          exact Option.noConfusion h
        | str s =>
          rw [hpa] at h
          exact Option.noConfusion h
        | arr a =>
          rw [hpa] at h
          exact Option.noConfusion h
      | null =>
        rw [hpo] at h
        exact Option.noConfusion h
      | bool b =>
        rw [hpo] at h
        exact Option.noConfusion h
      | num m2 =>
        rw [hpo] at h
        exact Option.noConfusion h
      | str s =>
        rw [hpo] at h
        exact Option.noConfusion h
      | arr a =>
        rw [hpo] at h
        exact Option.noConfusion h
    | null => exact Option.noConfusion h
    | bool b => exact Option.noConfusion h
    | num m2 => exact Option.noConfusion h
    | str s => exact Option.noConfusion h
    | arr a => exact Option.noConfusion h
  | null => exact Option.noConfusion h
  | bool b => exact Option.noConfusion h
  | num m2 => exact Option.noConfusion h
  | str s => exact Option.noConfusion h
  | arr a => exact Option.noConfusion h

/-- C1.  The conformance check returns a report with zero violations if and
only if the three specification conditions computed by `checkCond` all hold:
(a) every in-scope reference endpoint/method is present in the implementation
document, (b) every missing field or parameter is listed in the
documented-exceptions table, and (c) every extension field or parameter
carries the extension-marker text in its description. -/
theorem C1_zero_violations_iff_conditions (fuel : Nat) (filt : Option String)
    (oa ha : Json) (r : ConformanceReport) (a b c : Bool)
    (h : checkConformance fuel filt oa ha = some r)
    (hc : checkCond fuel filt oa ha = some (a, b, c)) :
    r.violations = [] ↔ a = true ∧ b = true ∧ c = true := by
  obtain ⟨hcc, htyped⟩ := checkCond_corr fuel filt oa ha r h
  rw [hc] at hcc
  have hab := Option.some.inj hcc
  have ha1 : a = noViol "missing_endpoint" r.violations := congrArg Prod.fst hab
  have hb1 : b = noViol "undocumented_missing" r.violations :=
    congrArg (fun p => p.2.1) hab
  have hc1 : c = noViol "unmarked_extension" r.violations :=
    congrArg (fun p => p.2.2) hab
  subst ha1
  subst hb1
  subst hc1
  constructor
  · intro he
    rw [he]
    exact ⟨rfl, rfl, rfl⟩
  · rintro ⟨h1, h2, h3⟩
    cases hv : r.violations with
    | nil => rfl
    | cons vi rest =>
      exfalso
      rw [hv] at h1 h2 h3 htyped
      have hty := htyped vi (List.mem_cons_self vi rest)
      rcases hty with ht | ht | ht
      · rw [noViol] at h1
        simp only [List.all_cons, Bool.and_eq_true] at h1
        rw [ht] at h1
        simp at h1
      · rw [noViol] at h2
        simp only [List.all_cons, Bool.and_eq_true] at h2
        rw [ht] at h2
        simp at h2
      · rw [noViol] at h3
        simp only [List.all_cons, Bool.and_eq_true] at h3
        rw [ht] at h3
        simp at h3

/-- Reference document of the C1 witness: one in-scope endpoint. -/
def c1oa : Json :=
  Json.obj [("paths", Json.obj [("/chat/completions", Json.obj [("post", Json.obj [])])])]

/-- Implementation document of the C1 witness: the mapped endpoint present. -/
def c1ha : Json :=
  Json.obj [("paths",
    Json.obj [("/api/v1/chat/completions", Json.obj [("post", Json.obj [])])])]

/-- The report the C1 witness inputs produce. -/
def c1rep : ConformanceReport :=
  { openai_version := Json.str "unknown", hadrian_version := Json.str "unknown",
    total_openai_endpoints := 1, total_hadrian_endpoints := 1,
    endpoints_checked := 1, fully_conformant := 1, endpoints_with_diffs := [],
    out_of_scope_endpoints := [], hadrian_only_endpoints := [], violations := [] }

/-- Witness for C1: on a concrete spec pair the check succeeds, all three
conditions hold, and the violation list is indeed empty. -/
theorem C1_witness :
    checkConformance 4 none c1oa c1ha = some c1rep ∧
    checkCond 4 none c1oa c1ha = some (true, true, true) ∧
    c1rep.violations = [] :=
  ⟨rfl, rfl,
    (C1_zero_violations_iff_conditions 4 none c1oa c1ha c1rep true true true rfl
        rfl).mpr ⟨rfl, rfl, rfl⟩⟩
